import Mathlib

/-!
Connect Four (`src/connect4.js`): game state, moves and win detection.

A shallow embedding of the `Game` class.  Player objects are compared by
reference (`===`), so a player is represented by its object identity.  A row of
the board is a JavaScript array: an index either holds a value or is a hole
(an index below `length` with no property, which appears when a write beyond
the end grows the array).
-/

namespace ConnectFour

/-- Identity of a `Player` object (the code compares players with `===`). -/
abbrev PlayerRef := Nat

/-- What a board cell can hold: `undefined` (as produced by
`Array.from({ length: WIDTH })`) or a reference to a player object. -/
inductive Value where
  | undefined : Value
  | player (p : PlayerRef) : Value
  deriving DecidableEq, Repr

/-- JavaScript truthiness of a cell value: `undefined` is falsy, an object is truthy. -/
def Value.truthy : Value → Bool
  | .undefined => false
  | .player _ => true

/-- A row `board[y]`: a JavaScript array; `none` is a hole. -/
abbrev Row := List (Option Value)

/-- The board: `board[y][x]`, an array of rows. -/
abbrev Board := List Row

/-- Reading `row[x]`: a hole or an index past the end reads as `undefined`. -/
def Row.read (r : Row) (x : Nat) : Value :=
  match r.get? x with
  | some (some v) => v
  | _ => .undefined

/-- Writing `row[x] = v`: an index below `length` is overwritten; an index at or
past `length` grows the array, the skipped indices becoming holes.  This is the
behaviour for an array index, that is for `x <= 2^32 - 2`.  For a larger `x`
the real assignment creates an ordinary property and leaves `length` alone;
here the value is kept as a list element all the same, which a later read of
`row[x]` and `every` (the value is truthy) cannot tell apart: only the length
differs, and lengths are only stated for array indices. -/
def Row.write (r : Row) (x : Nat) (v : Value) : Row :=
  if x < r.length then r.set x (some v)
  else r ++ List.replicate (x - r.length) none ++ [some v]

/-- The callback of `row.every((cell) => cell)`: `every` skips holes and tests
the truthiness of every other element. -/
def Row.every (r : Row) : Bool :=
  r.all fun c =>
    match c with
    | none => true
    | some v => v.truthy

/-- Reading `board[y][x]`.  The code only evaluates `board[y]` for
`0 <= y < HEIGHT`, where the row exists (`board` has `HEIGHT` rows); for a
missing row the model reads `undefined`. -/
def Board.read (b : Board) (y x : Nat) : Value :=
  match b.get? y with
  | some r => r.read x
  | none => .undefined

/-- The assignment `board[y][x] = v`. -/
def Board.write (b : Board) (y x : Nat) (v : Value) : Board :=
  b.modify (fun r => r.write x v) y

/-- The fields of a `Game` object that the game logic uses. -/
structure Game where
  WIDTH : Nat
  HEIGHT : Nat
  players : PlayerRef × PlayerRef
  currPlayer : PlayerRef
  board : Board
  deriving DecidableEq, Repr

/-- The board built by `makeBoard`: `HEIGHT` rows, each `Array.from({ length: WIDTH })`. -/
def makeBoard (WIDTH HEIGHT : Nat) : Board :=
  List.replicate HEIGHT (List.replicate WIDTH (some Value.undefined))

/-- The constructor `new Game(p1, p2, WIDTH, HEIGHT)`, as far as the game state
is concerned (the table and the colours are not part of it). -/
def Game.new (p1 p2 : PlayerRef) (WIDTH HEIGHT : Nat) : Game :=
  ⟨WIDTH, HEIGHT, (p1, p2), p1, makeBoard WIDTH HEIGHT⟩

/-- The constructor with its default sizes, `WIDTH = 7` and `HEIGHT = 6`. -/
def Game.newDefault (p1 p2 : PlayerRef) : Game :=
  Game.new p1 p2 7 6

/-- The loop of `findSpotForCol`, `for (y = HEIGHT - 1; y >= 0; y--)`; the
argument `n` is `y + 1`. -/
def findSpotLoop (b : Board) (x : Nat) : Nat → Option Nat
  | 0 => none
  | n + 1 => if !(b.read n x).truthy then some n else findSpotLoop b x n

/-- The method `findSpotForCol(x)`: `none` is `null`. -/
def Game.findSpotForCol (g : Game) (x : Nat) : Option Nat :=
  findSpotLoop g.board x g.HEIGHT

/-- The test applied by `_win` to one coordinate pair `[y, x]`. -/
def Game.legalAndMine (g : Game) (c : Int × Int) : Bool :=
  decide (0 ≤ c.1) && decide (c.1 < (g.HEIGHT : Int)) &&
  decide (0 ≤ c.2) && decide (c.2 < (g.WIDTH : Int)) &&
  decide (g.board.read c.1.toNat c.2.toNat = Value.player g.currPlayer)

/-- The inner function `_win(cells)` of `checkForWin`. -/
def Game.win (g : Game) (cells : List (Int × Int)) : Bool :=
  cells.all g.legalAndMine

/-- The list `horiz` for the anchor `(y, x)`. -/
def horiz (y x : Int) : List (Int × Int) :=
  [(y, x), (y, x + 1), (y, x + 2), (y, x + 3)]

/-- The list `vert` for the anchor `(y, x)`. -/
def vert (y x : Int) : List (Int × Int) :=
  [(y, x), (y + 1, x), (y + 2, x), (y + 3, x)]

/-- The list `diagDR` for the anchor `(y, x)`. -/
def diagDR (y x : Int) : List (Int × Int) :=
  [(y, x), (y + 1, x + 1), (y + 2, x + 2), (y + 3, x + 3)]

/-- The list `diagDL` for the anchor `(y, x)`. -/
def diagDL (y x : Int) : List (Int × Int) :=
  [(y, x), (y + 1, x - 1), (y + 2, x - 2), (y + 3, x - 3)]

/-- The body of the two loops of `checkForWin` at the anchor `(y, x)`. -/
def Game.winAt (g : Game) (y x : Nat) : Bool :=
  g.win (horiz y x) || g.win (vert y x) || g.win (diagDR y x) || g.win (diagDL y x)

/-- The method `checkForWin()`: the two loops return `true` at the first anchor
whose test succeeds; falling out of the loops returns `undefined`, which is
falsy and is `false` here. -/
def Game.checkForWin (g : Game) : Bool :=
  (List.range g.HEIGHT).any fun y => (List.range g.WIDTH).any fun x => g.winAt y x

/-- The tie test `board.every((row) => row.every((cell) => cell))`. -/
def Game.boardEvery (g : Game) : Bool :=
  g.board.all Row.every

/-- What a call of `handleClick` does besides changing the game fields. -/
inductive Outcome where
  | ignored : Outcome
  | threw : Outcome
  | won (p : PlayerRef) : Outcome
  | tie : Outcome
  | continuing : Outcome
  deriving DecidableEq, Repr

/-- The state after the assignment `this.board[y][x] = this.currPlayer`. -/
def Game.place (g : Game) (y x : Nat) : Game :=
  ⟨g.WIDTH, g.HEIGHT, g.players, g.currPlayer, g.board.write y x (Value.player g.currPlayer)⟩

/-- The assignment `this.currPlayer = this.currPlayer === this.players[0] ?
this.players[1] : this.players[0]`. -/
def Game.switchPlayer (g : Game) : Game :=
  ⟨g.WIDTH, g.HEIGHT, g.players,
    if g.currPlayer = g.players.1 then g.players.2 else g.players.1, g.board⟩

/-- Whether `placeInTable(y, x)` finds its table cell: `makeHtmlBoard` creates
a cell with id `y-x` exactly for `y < HEIGHT` and `x < WIDTH`; for any other
pair `getElementById` gives `null` and `spot.append` throws. -/
def Game.hasTableCell (g : Game) (y x : Nat) : Bool :=
  decide (y < g.HEIGHT) && decide (x < g.WIDTH)

/-- The method `handleClick(evt)` with `x = +evt.target.id`: the game after the
call and what the call did.
* `ignored`: `y === null`, the click is ignored;
* `threw`: `placeInTable` threw after the board was written;
* `won p`: `endGame` was called with the message naming the current player `p`;
* `tie`: `endGame('Tie!')` was called;
* `continuing`: the current player was switched. -/
def Game.handleClick (g : Game) (x : Nat) : Game × Outcome :=
  match g.findSpotForCol x with
  | none => (g, .ignored)
  | some y =>
    let g1 := g.place y x
    if !g.hasTableCell y x then (g1, .threw)
    else if g1.checkForWin then (g1, .won g1.currPlayer)
    else if g1.boardEvery then (g1, .tie)
    else (g1.switchPlayer, .continuing)

/-- The game after a sequence of calls of `handleClick`, one per column of the list. -/
def Game.clicks (g : Game) (xs : List Nat) : Game :=
  xs.foldl (fun s x => (s.handleClick x).1) g

/-- The page around a game: whether `handleGameClick` is still attached to the
top row, and how many `endGame` timeouts are pending. -/
structure Page where
  game : Game
  listening : Bool
  timers : Nat
  deriving DecidableEq, Repr

/-- What can happen to the page: a click on the top cell of column `x`, or the
oldest pending `setTimeout` callback of `endGame` firing. -/
inductive Event where
  | click (x : Nat) : Event
  | timeout : Event
  deriving DecidableEq, Repr

/-- The page right after `new Game(p1, p2, WIDTH, HEIGHT)`: `makeHtmlBoard` has
attached the click listener. -/
def Page.start (p1 p2 : PlayerRef) (WIDTH HEIGHT : Nat) : Page :=
  ⟨Game.new p1 p2 WIDTH HEIGHT, true, 0⟩

/-- One event.  A click reaches `handleClick` only while the listener is
attached; `endGame(msg)` only schedules a callback, and the callback, when it
fires, removes the listener (and shows the alert). -/
def Page.step (pg : Page) : Event → Page × Option Outcome
  | .click x =>
    if pg.listening then
      let r := pg.game.handleClick x
      match r.2 with
      | .won p => (⟨r.1, pg.listening, pg.timers + 1⟩, some (.won p))
      | .tie => (⟨r.1, pg.listening, pg.timers + 1⟩, some .tie)
      | o => (⟨r.1, pg.listening, pg.timers⟩, some o)
    else (pg, none)
  | .timeout =>
    if pg.timers = 0 then (pg, none)
    else (⟨pg.game, false, pg.timers - 1⟩, none)

/-- The page after a sequence of events. -/
def Page.run (pg : Page) (es : List Event) : Page :=
  es.foldl (fun s e => (s.step e).1) pg

/-- The cell `(y, x)` of the board is occupied (its value is truthy). -/
def Game.occupied (g : Game) (y x : Nat) : Prop :=
  (g.board.read y x).truthy = true

instance (g : Game) (y x : Nat) : Decidable (g.occupied y x) := by
  unfold Game.occupied; infer_instance

/-- The board has `HEIGHT` rows (what `makeBoard` builds and no method changes). -/
def Game.HasRows (g : Game) : Prop :=
  g.board.length = g.HEIGHT

/-- The board is a dense `HEIGHT x WIDTH` grid: `HEIGHT` rows, each of exactly
`WIDTH` elements, none of them a hole. -/
def Game.Dense (g : Game) : Prop :=
  g.board.length = g.HEIGHT ∧ ∀ r ∈ g.board, r.length = g.WIDTH ∧ none ∉ r

instance (g : Game) : Decidable g.HasRows := by
  unfold Game.HasRows; infer_instance

instance (g : Game) : Decidable g.Dense := by
  unfold Game.Dense; infer_instance

/-- The four directions in which a line of four is looked for. -/
inductive Dir where
  | horizontal : Dir
  | vertical : Dir
  | downRight : Dir
  | downLeft : Dir
  deriving DecidableEq, Repr

/-- The check list that `checkForWin` builds for a direction at the anchor `(y, x)`. -/
def Dir.line (d : Dir) (y x : Int) : List (Int × Int) :=
  match d with
  | .horizontal => horiz y x
  | .vertical => vert y x
  | .downRight => diagDR y x
  | .downLeft => diagDL y x

/-- Specification side: the `i`-th coordinate pair of the line from the anchor
`(y, x)`: horizontal `(y, x+i)`, vertical `(y+i, x)`, diagonal down-right
`(y+i, x+i)`, diagonal down-left `(y+i, x-i)`. -/
def Dir.specCell (d : Dir) (y x : Int) (i : Nat) : Int × Int :=
  match d with
  | .horizontal => (y, x + i)
  | .vertical => (y + i, x)
  | .downRight => (y + i, x + i)
  | .downLeft => (y + i, x - i)

/-- Specification side: the coordinate pair is inside the `HEIGHT x WIDTH` grid. -/
def Game.inGrid (g : Game) (c : Int × Int) : Prop :=
  0 ≤ c.1 ∧ c.1 < (g.HEIGHT : Int) ∧ 0 ≤ c.2 ∧ c.2 < (g.WIDTH : Int)

/-- Specification side: the cell at an in-grid coordinate pair holds the player `p`. -/
def Game.holds (g : Game) (c : Int × Int) (p : PlayerRef) : Prop :=
  g.board.read c.1.toNat c.2.toNat = Value.player p

/-- The anchors of the grid listed column by column (the code lists them row by row). -/
def columnMajorAnchors (WIDTH HEIGHT : Nat) : List (Nat × Nat) :=
  (List.range WIDTH).flatMap fun x => (List.range HEIGHT).map fun y => (y, x)

/-- A sequence of 41 clicks on the default board after which only the cell
`(0, 6)` is empty and no line of four has been completed. -/
def fortyOneClicks : List Nat :=
  [0, 0, 0, 0, 0, 0, 1, 1, 1, 1, 1, 1, 2, 2, 2, 2, 2, 2, 4, 3, 3, 3, 3, 3, 3, 4, 4, 4, 4, 4,
    5, 5, 5, 5, 5, 5, 6, 6, 6, 6, 6]

/-- The default game after the clicks 0, 6, 1, 6, 2, 6, 3: player 1 holds the
cells `(5, 0)` to `(5, 3)`. -/
def wonGame : Game :=
  (Game.newDefault 1 2).clicks [0, 6, 1, 6, 2, 6, 3]

/-- The page of a default game after the clicks 0, 6, 1, 6, 2, 6. -/
def beforeWinPage : Page :=
  (Page.start 1 2 7 6).run
    [Event.click 0, Event.click 6, Event.click 1, Event.click 6, Event.click 2, Event.click 6]

/-- The page right after the winning click on column 3 (the `endGame` timeout
has not fired yet). -/
def wonPage : Page :=
  (beforeWinPage.step (Event.click 3)).1

/-- The scan of `checkForWin` run over an arbitrary list of anchors and an
arbitrary list of directions, stopping at the first success. -/
def Game.scanIn (g : Game) (anchors : List (Nat × Nat)) (dirs : List Dir) : Bool :=
  anchors.any fun a => dirs.any fun d => g.win (d.line a.1 a.2)

/-- The game asked about the player `p`: `currPlayer` replaced by `p`, all else
the same (`checkForWin` looks for lines of `this.currPlayer`). -/
def Game.withCurrent (g : Game) (p : PlayerRef) : Game :=
  ⟨g.WIDTH, g.HEIGHT, g.players, p, g.board⟩

/-- Specification side: the horizontally mirrored board, whose cell `(y, x)`
is the cell `(y, WIDTH-1-x)` of `b`. -/
def mirrorBoard (WIDTH : Nat) (b : Board) : Board :=
  b.map fun r => (List.range WIDTH).map fun x => some (r.read (WIDTH - 1 - x))

/-- Specification side: the game with its board mirrored left to right. -/
def Game.mirror (g : Game) : Game :=
  ⟨g.WIDTH, g.HEIGHT, g.players, g.currPlayer, mirrorBoard g.WIDTH g.board⟩

/-- The outcomes of a sequence of calls of `handleClick`, in order. -/
def Game.outcomes (g : Game) : List Nat → List Outcome
  | [] => []
  | x :: xs => (g.handleClick x).2 :: (g.handleClick x).1.outcomes xs

/-- The cells of the `HEIGHT x WIDTH` grid, row by row. -/
def Game.cells (g : Game) : List (Nat × Nat) :=
  (List.range g.HEIGHT).flatMap fun y => (List.range g.WIDTH).map fun x => (y, x)

/-- The number of grid cells that hold the player `p`. -/
def Game.countOf (g : Game) (p : PlayerRef) : Nat :=
  g.cells.countP fun c => decide (g.board.read c.1 c.2 = Value.player p)

/-- The number of occupied grid cells. -/
def Game.occupiedCount (g : Game) : Nat :=
  g.cells.countP fun c => (g.board.read c.1 c.2).truthy

/-- Renaming of the player objects in a cell value. -/
def Value.relabel (f : PlayerRef → PlayerRef) : Value → Value
  | .undefined => .undefined
  | .player p => .player (f p)

/-- Renaming of the player objects in a board. -/
def relabelBoard (f : PlayerRef → PlayerRef) (b : Board) : Board :=
  b.map fun r => r.map fun c => c.map (Value.relabel f)

/-- The same game played by renamed player objects. -/
def Game.relabel (f : PlayerRef → PlayerRef) (g : Game) : Game :=
  ⟨g.WIDTH, g.HEIGHT, (f g.players.1, f g.players.2), f g.currPlayer, relabelBoard f g.board⟩

/-- Renaming of the player named by an outcome. -/
def Outcome.relabel (f : PlayerRef → PlayerRef) : Outcome → Outcome
  | .won p => .won (f p)
  | .ignored => .ignored
  | .threw => .threw
  | .tie => .tie
  | .continuing => .continuing

/-- A JavaScript string, as the list of its characters. -/
abbrev JSString := List Char

/-- A `Player` object: `name` and `color`. -/
structure Player where
  name : JSString
  color : JSString
  deriving DecidableEq, Repr

/-- The player objects, by identity. -/
abbrev Heap := PlayerRef → Player

/-- The value of a hexadecimal digit, in either case; `none` for any other character. -/
def hexDigitValue (c : Char) : Option Nat :=
  if '0' ≤ c ∧ c ≤ '9' then some (c.toNat - '0'.toNat)
  else if 'a' ≤ c ∧ c ≤ 'f' then some (c.toNat - 'a'.toNat + 10)
  else if 'A' ≤ c ∧ c ≤ 'F' then some (c.toNat - 'A'.toNat + 10)
  else none

/-- The conversion `Number("0x" + s)`: the value of the hexadecimal digits `s`,
or `none` for `NaN` (no digit, or a character that is not a hexadecimal
digit).  Exact below `2^53`, beyond which a JavaScript number is rounded. -/
def numberOfHex (s : JSString) : Option Nat :=
  match s with
  | [] => none
  | _ => s.foldl
      (fun acc c =>
        match acc, hexDigitValue c with
        | some a, some d => some (a * 16 + d)
        | _, _ => none)
      (some 0)

/-- The expression `n ^ 0xffffff`: both operands go through `ToInt32` (`NaN`
becomes 0), the bits are combined, and the result is a signed 32-bit integer. -/
def xorFFFFFF (n : Option Nat) : Int :=
  if ((n.getD 0) % 2 ^ 32) ^^^ 0xffffff < 2 ^ 31 then
    ((((n.getD 0) % 2 ^ 32) ^^^ 0xffffff : Nat) : Int)
  else ((((n.getD 0) % 2 ^ 32) ^^^ 0xffffff : Nat) : Int) - 2 ^ 32

/-- The method `toString(16)` of an integer: lower-case digits, no leading
zeros, a minus sign for a negative number. -/
def toString16 (i : Int) : JSString :=
  if i < 0 then '-' :: Nat.toDigits 16 i.natAbs else Nat.toDigits 16 i.toNat

/-- The colour that `colorUnique` computes from the colour of player 1:
the template literal around
`(Number("0x1" + hexStringP1) ^ 0xffffff).toString(16).substr(1).toUpperCase()`,
with `hexStringP1 = color.substring(1)`. -/
def oppositeColor (color : JSString) : JSString :=
  '#' :: ((toString16 (xorFFFFFF (numberOfHex ('1' :: color.drop 1)))).drop 1).map Char.toUpper

/-- The method `colorUnique()` on the player objects `players[0] = p1` and
`players[1] = p2`: when the two colours are equal strings, the `color` of the
object `p2` is overwritten. -/
def colorUnique (h : Heap) (p1 p2 : PlayerRef) : Heap :=
  if (h p1).color = (h p2).color then
    Function.update h p2 ⟨(h p2).name, oppositeColor (h p1).color⟩
  else h

/-- Specification side: the upper-case hexadecimal digit of a value below 16. -/
def upperHexDigit (d : Nat) : Char :=
  ['0', '1', '2', '3', '4', '5', '6', '7', '8', '9', 'A', 'B', 'C', 'D', 'E', 'F'].getD d '?'

/-- Specification side: the six-digit upper-case hexadecimal form of a number,
leading zeros kept. -/
def hex6Upper (n : Nat) : JSString :=
  [upperHexDigit (n / 16 ^ 5 % 16), upperHexDigit (n / 16 ^ 4 % 16),
    upperHexDigit (n / 16 ^ 3 % 16), upperHexDigit (n / 16 ^ 2 % 16),
    upperHexDigit (n / 16 % 16), upperHexDigit (n % 16)]

/-- Specification side: the string is `#` followed by six hexadecimal digits
whose value is `v`. -/
def IsHexColor (s : JSString) (v : Nat) : Prop :=
  ∃ d5 d4 d3 d2 d1 d0 : Char, ∃ v5 v4 v3 v2 v1 v0 : Nat,
    s = ['#', d5, d4, d3, d2, d1, d0] ∧
    hexDigitValue d5 = some v5 ∧ hexDigitValue d4 = some v4 ∧ hexDigitValue d3 = some v3 ∧
    hexDigitValue d2 = some v2 ∧ hexDigitValue d1 = some v1 ∧ hexDigitValue d0 = some v0 ∧
    v = v5 * 16 ^ 5 + v4 * 16 ^ 4 + v3 * 16 ^ 3 + v2 * 16 ^ 2 + v1 * 16 + v0

/-- Two player objects, 1 and 2, that were both given the colour `#ff0000`. -/
def bothRedHeap : Heap := fun r =>
  if r = 1 then ⟨['r', 'e', 'd'], ['#', 'f', 'f', '0', '0', '0', '0']⟩
  else ⟨['R', 'E', 'D'], ['#', 'f', 'f', '0', '0', '0', '0']⟩

end ConnectFour

set_option maxRecDepth 1000000

namespace ConnectFour

/-! ## Reading and writing cells -/

theorem Row.rowRead_write (r : Row) (x x' : Nat) (v : Value) :
    (r.write x v).read x' = if x' = x then v else r.read x' := by
  unfold Row.write Row.read
  by_cases hx : x < r.length
  · simp only [hx, if_true, List.get?_eq_getElem?]
    by_cases h : x' = x
    · subst h; simp [hx]
    · have h' : x ≠ x' := fun e => h e.symm
      simp [h, List.getElem?_set_ne h']
  · simp only [hx, if_false, List.get?_eq_getElem?]
    have hle : r.length ≤ x := Nat.le_of_not_lt hx
    by_cases h : x' = x
    · subst h
      have hlen : (r ++ List.replicate (x' - r.length) none).length = x' := by
        simp; omega
      have : (r ++ List.replicate (x' - r.length) none ++ [some v])[x']? = some (some v) := by
        rw [List.getElem?_append_right (Nat.le_of_eq hlen), hlen]
        simp
      rw [this]
      simp
    · simp only [h, if_false]
      by_cases h1 : x' < r.length
      · have : (r ++ List.replicate (x - r.length) none ++ [some v])[x']? = r[x']? := by
          rw [List.append_assoc, List.getElem?_append_left h1]
        rw [this]
      · have h2 : r.length ≤ x' := Nat.le_of_not_lt h1
        have e1 : r[x']? = none := List.getElem?_eq_none h2
        by_cases h3 : x' < x
        · have : (r ++ List.replicate (x - r.length) none ++ [some v])[x']? = some none := by
            rw [List.append_assoc, List.getElem?_append_right h2,
              List.getElem?_append_left (by simp; omega)]
            simp [List.getElem?_replicate]
            omega
          rw [this, e1]
        · have : (r ++ List.replicate (x - r.length) none ++ [some v])[x']? = none := by
            apply List.getElem?_eq_none
            simp
            omega
          rw [this, e1]

theorem Board.rows_write (b : Board) (y x : Nat) (v : Value) :
    (b.write y x v).length = b.length := by
  simp [Board.write]

theorem Board.cellRead_write (b : Board) (y x y' x' : Nat) (v : Value) (hy : y < b.length) :
    (b.write y x v).read y' x' = if y' = y ∧ x' = x then v else b.read y' x' := by
  unfold Board.write Board.read
  simp only [List.get?_eq_getElem?, List.getElem?_modify]
  by_cases h : y' = y
  · subst h
    simp [List.getElem?_eq_getElem hy, Row.rowRead_write]
  · have h' : y ≠ y' := fun e => h e.symm
    simp [h, h']

end ConnectFour

namespace ConnectFour

/-! ## `findSpotForCol` -/

theorem findSpotLoop_some (b : Board) (x : Nat) :
    ∀ n y, findSpotLoop b x n = some y ↔
      (y < n ∧ (b.read y x).truthy = false ∧
        ∀ y', y < y' → y' < n → (b.read y' x).truthy = true) := by
  intro n
  induction n with
  | zero => intro y; simp [findSpotLoop]
  | succ n ih =>
    intro y
    unfold findSpotLoop
    by_cases h : (b.read n x).truthy = true
    · simp only [h, Bool.not_true, Bool.false_eq_true, if_false, ih]
      constructor
      · rintro ⟨h1, h2, h3⟩
        refine ⟨by omega, h2, ?_⟩
        intro y' hy hy'
        rcases Nat.lt_succ_iff_lt_or_eq.mp hy' with h4 | h4
        · exact h3 y' hy h4
        · rw [h4]; exact h
      · rintro ⟨h1, h2, h3⟩
        have hne : y ≠ n := by
          intro e; rw [e, h] at h2; exact Bool.noConfusion h2
        exact ⟨by omega, h2, fun y' hy hy' => h3 y' hy (by omega)⟩
    · have hf : (b.read n x).truthy = false := by simpa using h
      simp only [hf, Bool.not_false, if_true, Option.some.injEq]
      constructor
      · intro e
        subst e
        exact ⟨by omega, hf, fun y' hy hy' => by omega⟩
      · rintro ⟨h1, h2, h3⟩
        by_contra hne
        have hlt : y < n := by
          have : n ≠ y := hne
          omega
        have := h3 n hlt (by omega)
        rw [hf] at this
        exact Bool.noConfusion this

theorem findSpotLoop_none (b : Board) (x : Nat) :
    ∀ n, findSpotLoop b x n = none ↔ ∀ y, y < n → (b.read y x).truthy = true := by
  intro n
  induction n with
  | zero => simp [findSpotLoop]
  | succ n ih =>
    unfold findSpotLoop
    by_cases h : (b.read n x).truthy = true
    · simp only [h, Bool.not_true, Bool.false_eq_true, if_false, ih]
      constructor
      · intro h1 y hy
        rcases Nat.lt_succ_iff_lt_or_eq.mp hy with h4 | h4
        · exact h1 y h4
        · rw [h4]; exact h
      · intro h1 y hy
        exact h1 y (by omega)
    · have hf : (b.read n x).truthy = false := by simpa using h
      simp only [hf, Bool.not_false, if_true]
      constructor
      · intro e; exact Option.noConfusion e
      · intro h1
        have := h1 n (by omega)
        rw [hf] at this
        exact Bool.noConfusion this

/-- C2: for a board of `HEIGHT` rows and a column `x` in `[0, WIDTH)`,
`findSpotForCol(x)` returns `y` exactly when `y` is the largest row index below
`HEIGHT` whose cell `(y, x)` is empty (the first empty cell met scanning from
row `HEIGHT-1` up to row 0), and returns `null` exactly when every cell of
column `x` is occupied. -/
theorem findSpotForCol_spec (g : Game) (x : Nat) (_hg : g.HasRows) (_hx : x < g.WIDTH) :
    (∀ y, g.findSpotForCol x = some y ↔
      (y < g.HEIGHT ∧ ¬ g.occupied y x ∧ ∀ y', y < y' → y' < g.HEIGHT → g.occupied y' x)) ∧
    (g.findSpotForCol x = none ↔ ∀ y, y < g.HEIGHT → g.occupied y x) := by
  refine ⟨fun y => ?_, ?_⟩
  · simp only [Game.findSpotForCol, Game.occupied, findSpotLoop_some, Bool.not_eq_true]
  · simp only [Game.findSpotForCol, Game.occupied, findSpotLoop_none]

/-- Witness for C2: the default game after three clicks on column 3. -/
theorem findSpotForCol_spec_witness :
    ((Game.newDefault 1 2).clicks [3, 3, 3]).HasRows ∧ 3 < ((Game.newDefault 1 2).clicks [3, 3, 3]).WIDTH ∧
    ((Game.newDefault 1 2).clicks [3, 3, 3]).findSpotForCol 3 = some 2 ∧
    (2 < 6 ∧ ¬ ((Game.newDefault 1 2).clicks [3, 3, 3]).occupied 2 3 ∧
      ∀ y', 2 < y' → y' < ((Game.newDefault 1 2).clicks [3, 3, 3]).HEIGHT →
        ((Game.newDefault 1 2).clicks [3, 3, 3]).occupied y' 3) :=
  ⟨by decide, by decide, by decide,
    ((findSpotForCol_spec ((Game.newDefault 1 2).clicks [3, 3, 3]) 3 (by decide) (by decide)).1 2).mp
      (by decide)⟩

end ConnectFour

namespace ConnectFour

/-! ## `checkForWin` -/

theorem legalAndMine_iff (g : Game) (c : Int × Int) :
    g.legalAndMine c = true ↔ g.inGrid c ∧ g.holds c g.currPlayer := by
  simp only [Game.legalAndMine, Game.inGrid, Game.holds, Bool.and_eq_true, decide_eq_true_eq]
  tauto

theorem win_line_iff (g : Game) (d : Dir) (y x : Int) :
    g.win (d.line y x) = true ↔
      ∀ i : Nat, i < 4 → g.legalAndMine (d.specCell y x i) = true := by
  constructor
  · intro h i hi
    cases d <;>
      simp only [Game.win, Dir.line, horiz, vert, diagDR, diagDL, List.all_cons, List.all_nil,
        Bool.and_true, Bool.and_eq_true] at h <;>
      obtain ⟨h0, h1, h2, h3⟩ := h <;>
      interval_cases i <;>
      simp only [Dir.specCell, Nat.cast_zero, Nat.cast_one, Nat.cast_ofNat, add_zero, sub_zero] <;>
      assumption
  · intro h
    have h0 := h 0 (by decide)
    have h1 := h 1 (by decide)
    have h2 := h 2 (by decide)
    have h3 := h 3 (by decide)
    cases d <;>
      simp only [Dir.specCell, Nat.cast_zero, Nat.cast_one, Nat.cast_ofNat, add_zero, sub_zero]
        at h0 h1 h2 h3 <;>
      simp only [Game.win, Dir.line, horiz, vert, diagDR, diagDL, List.all_cons, List.all_nil,
        Bool.and_true, Bool.and_eq_true] <;>
      exact ⟨h0, h1, h2, h3⟩

theorem winAt_iff (g : Game) (y x : Nat) :
    g.winAt y x = true ↔ ∃ d : Dir, g.win (d.line y x) = true := by
  simp only [Game.winAt, Bool.or_eq_true]
  constructor
  · rintro (((h | h) | h) | h)
    · exact ⟨.horizontal, h⟩
    · exact ⟨.vertical, h⟩
    · exact ⟨.downRight, h⟩
    · exact ⟨.downLeft, h⟩
  · rintro ⟨d, h⟩
    cases d
    · exact Or.inl (Or.inl (Or.inl h))
    · exact Or.inl (Or.inl (Or.inr h))
    · exact Or.inl (Or.inr h)
    · exact Or.inr h

theorem checkForWin_iff_winAt (g : Game) :
    g.checkForWin = true ↔ ∃ y x : Nat, y < g.HEIGHT ∧ x < g.WIDTH ∧ g.winAt y x = true := by
  simp only [Game.checkForWin, List.any_eq_true, List.mem_range]
  constructor
  · rintro ⟨y, hy, x, hx, h⟩
    exact ⟨y, x, hy, hx, h⟩
  · rintro ⟨y, x, hy, hx, h⟩
    exact ⟨y, hy, x, hx, h⟩

theorem scanIn_iff (g : Game) (anchors : List (Nat × Nat)) (dirs : List Dir) :
    g.scanIn anchors dirs = true ↔
      ∃ a ∈ anchors, ∃ d ∈ dirs, g.win (d.line a.1 a.2) = true := by
  simp only [Game.scanIn, List.any_eq_true]

/-- C1: on a board of `HEIGHT` rows, `checkForWin` returns true if and only if
there are an anchor cell `(y, x)` of the grid and one of the four directions
such that all four coordinates of the line are inside the grid and all four
cells hold the current player; and the scan gives the same result over any
list of anchors that covers exactly the grid cells and any list of directions
that covers the four directions, in whatever order. -/
theorem checkForWin_spec (g : Game) (_hg : g.HasRows) :
    (g.checkForWin = true ↔
      ∃ (y x : Nat) (d : Dir), y < g.HEIGHT ∧ x < g.WIDTH ∧
        ∀ i : Nat, i < 4 →
          g.inGrid (d.specCell y x i) ∧ g.holds (d.specCell y x i) g.currPlayer) ∧
    (∀ (anchors : List (Nat × Nat)) (dirs : List Dir),
      (∀ y x, (y, x) ∈ anchors ↔ (y < g.HEIGHT ∧ x < g.WIDTH)) → (∀ d, d ∈ dirs) →
        g.scanIn anchors dirs = g.checkForWin) := by
  have key : g.checkForWin = true ↔
      ∃ (y x : Nat) (d : Dir), y < g.HEIGHT ∧ x < g.WIDTH ∧ g.win (d.line y x) = true := by
    rw [checkForWin_iff_winAt]
    constructor
    · rintro ⟨y, x, hy, hx, h⟩
      obtain ⟨d, hd⟩ := (winAt_iff g y x).mp h
      exact ⟨y, x, d, hy, hx, hd⟩
    · rintro ⟨y, x, d, hy, hx, hd⟩
      exact ⟨y, x, hy, hx, (winAt_iff g y x).mpr ⟨d, hd⟩⟩
  refine ⟨?_, ?_⟩
  · rw [key]
    constructor
    · rintro ⟨y, x, d, hy, hx, hd⟩
      refine ⟨y, x, d, hy, hx, fun i hi => ?_⟩
      exact (legalAndMine_iff g _).mp ((win_line_iff g d y x).mp hd i hi)
    · rintro ⟨y, x, d, hy, hx, hd⟩
      refine ⟨y, x, d, hy, hx, (win_line_iff g d y x).mpr fun i hi => ?_⟩
      exact (legalAndMine_iff g _).mpr (hd i hi)
  · intro anchors dirs ha hd
    rw [Bool.eq_iff_iff, key, scanIn_iff]
    constructor
    · rintro ⟨⟨y, x⟩, hmem, d, _, h⟩
      obtain ⟨hy, hx⟩ := (ha y x).mp hmem
      exact ⟨y, x, d, hy, hx, h⟩
    · rintro ⟨y, x, d, hy, hx, h⟩
      exact ⟨(y, x), (ha y x).mpr ⟨hy, hx⟩, d, hd d, h⟩

end ConnectFour

namespace ConnectFour

/-! ## `handleClick`: frame lemmas -/

theorem Value.truthy_eq_false_iff (v : Value) : v.truthy = false ↔ v = Value.undefined := by
  cases v <;> simp [Value.truthy]

theorem handleClick_of_none (g : Game) (x : Nat) (h : g.findSpotForCol x = none) :
    g.handleClick x = (g, Outcome.ignored) := by
  simp [Game.handleClick, h]

theorem handleClick_board (g : Game) (x y : Nat) (h : g.findSpotForCol x = some y) :
    (g.handleClick x).1.board = g.board.write y x (Value.player g.currPlayer) := by
  simp only [Game.handleClick, h]
  split_ifs <;> rfl

theorem handleClick_fields (g : Game) (x : Nat) :
    (g.handleClick x).1.WIDTH = g.WIDTH ∧ (g.handleClick x).1.HEIGHT = g.HEIGHT ∧
      (g.handleClick x).1.players = g.players := by
  unfold Game.handleClick
  cases g.findSpotForCol x with
  | none => exact ⟨rfl, rfl, rfl⟩
  | some y =>
    simp only
    split_ifs <;> exact ⟨rfl, rfl, rfl⟩

theorem findSpotForCol_lt (g : Game) (x y : Nat) (h : g.findSpotForCol x = some y) :
    y < g.HEIGHT ∧ g.board.read y x = Value.undefined := by
  have := (findSpotLoop_some g.board x g.HEIGHT y).mp h
  exact ⟨this.1, (Value.truthy_eq_false_iff _).mp this.2.1⟩

theorem handleClick_hasRows (g : Game) (x : Nat) (hg : g.HasRows) :
    (g.handleClick x).1.HasRows := by
  unfold Game.HasRows at *
  rw [(handleClick_fields g x).2.1]
  cases h : g.findSpotForCol x with
  | none => rw [handleClick_of_none g x h]; exact hg
  | some y => rw [handleClick_board g x y h, Board.rows_write]; exact hg

theorem clicks_hasRows (xs : List Nat) : ∀ g : Game, g.HasRows → (g.clicks xs).HasRows := by
  induction xs with
  | nil => intro g hg; exact hg
  | cons x xs ih =>
    intro g hg
    exact ih _ (handleClick_hasRows g x hg)

/-- A call of `handleClick` never changes a cell that holds a player. -/
theorem handleClick_keeps (g : Game) (x : Nat) (hg : g.HasRows) (y' x' : Nat) (p : PlayerRef)
    (h : g.board.read y' x' = Value.player p) :
    (g.handleClick x).1.board.read y' x' = Value.player p := by
  cases hs : g.findSpotForCol x with
  | none => rw [handleClick_of_none g x hs]; exact h
  | some y =>
    obtain ⟨hy, he⟩ := findSpotForCol_lt g x y hs
    rw [handleClick_board g x y hs, Board.cellRead_write _ _ _ _ _ _ (by rw [hg]; exact hy)]
    by_cases hc : y' = y ∧ x' = x
    · obtain ⟨h1, h2⟩ := hc
      subst h1; subst h2
      rw [he] at h
      exact Value.noConfusion h
    · rw [if_neg hc]; exact h

theorem clicks_keeps (xs : List Nat) :
    ∀ g : Game, g.HasRows → ∀ (y' x' : Nat) (p : PlayerRef),
      g.board.read y' x' = Value.player p → (g.clicks xs).board.read y' x' = Value.player p := by
  induction xs with
  | nil => intro g _ y' x' p h; exact h
  | cons x xs ih =>
    intro g hg y' x' p h
    exact ih _ (handleClick_hasRows g x hg) y' x' p (handleClick_keeps g x hg y' x' p h)

end ConnectFour

namespace ConnectFour

/-! ## Dense boards and the tie test -/

theorem Row.write_dense (r : Row) (x : Nat) (v : Value) (hx : x < r.length) (hr : none ∉ r) :
    (r.write x v).length = r.length ∧ none ∉ r.write x v := by
  unfold Row.write
  rw [if_pos hx]
  refine ⟨List.length_set _ _ _, fun hmem => ?_⟩
  rcases List.mem_or_eq_of_mem_set hmem with h | h
  · exact hr h
  · exact Option.noConfusion h

theorem place_dense (g : Game) (y x : Nat) (hg : g.Dense) (hx : x < g.WIDTH) :
    (g.place y x).Dense := by
  obtain ⟨hlen, hrows⟩ := hg
  refine ⟨?_, ?_⟩
  · show (g.board.write y x _).length = g.HEIGHT
    rw [Board.rows_write]; exact hlen
  · intro r hr
    show r.length = g.WIDTH ∧ none ∉ r
    have hr' : r ∈ g.board.write y x (Value.player g.currPlayer) := hr
    obtain ⟨m, hm⟩ := List.mem_iff_getElem?.mp hr'
    unfold Board.write at hm
    rw [List.getElem?_modify] at hm
    cases h0 : g.board[m]? with
    | none => rw [h0] at hm; exact Option.noConfusion hm
    | some r0 =>
      rw [h0] at hm
      have hr0 : r0 ∈ g.board := List.mem_iff_getElem?.mpr ⟨m, h0⟩
      obtain ⟨hl0, hn0⟩ := hrows r0 hr0
      simp only [Option.map_eq_map, Option.map_some', Option.some.injEq] at hm
      by_cases hym : y = m
      · rw [if_pos hym] at hm
        rw [← hm]
        have := Row.write_dense r0 x (Value.player g.currPlayer) (by rw [hl0]; exact hx) hn0
        exact ⟨by rw [this.1]; exact hl0, this.2⟩
      · rw [if_neg hym] at hm
        rw [← hm]; exact ⟨hl0, hn0⟩

theorem new_dense (p1 p2 : PlayerRef) (W H : Nat) : (Game.new p1 p2 W H).Dense := by
  refine ⟨by simp [Game.new, makeBoard], ?_⟩
  intro r hr
  have hr' : r = List.replicate W (some Value.undefined) := by
    simp only [Game.new, makeBoard] at hr
    exact (List.mem_replicate.mp hr).2
  subst hr'
  refine ⟨by simp [Game.new], fun h => ?_⟩
  exact Option.noConfusion (List.mem_replicate.mp h).2

theorem Game.Dense.hasRows {g : Game} (hg : g.Dense) : g.HasRows := hg.1

/-- On a dense board the tie test holds exactly when every cell of the grid is occupied. -/
theorem boardEvery_iff (g : Game) (hg : g.Dense) :
    g.boardEvery = true ↔ ∀ y x, y < g.HEIGHT → x < g.WIDTH → g.occupied y x := by
  obtain ⟨hlen, hrows⟩ := hg
  simp only [Game.boardEvery, Row.every, List.all_eq_true, Game.occupied]
  constructor
  · intro h y x hy hx
    have hy' : y < g.board.length := by rw [hlen]; exact hy
    have hr : g.board[y] ∈ g.board := List.getElem_mem hy'
    obtain ⟨hl, hn⟩ := hrows _ hr
    have hx' : x < (g.board[y]).length := by rw [hl]; exact hx
    have hc : (g.board[y])[x] ∈ g.board[y] := List.getElem_mem hx'
    have := h _ hr _ hc
    simp only [Board.read, Row.read, List.get?_eq_getElem?, List.getElem?_eq_getElem hy',
      List.getElem?_eq_getElem hx']
    cases hv : (g.board[y])[x] with
    | none => rw [hv] at hc; exact absurd hc hn
    | some v => rw [hv] at this; simpa using this
  · intro h r hr c hc
    obtain ⟨y, hy, rfl⟩ := List.mem_iff_getElem.mp hr
    obtain ⟨hl, hn⟩ := hrows _ hr
    obtain ⟨x, hx, rfl⟩ := List.mem_iff_getElem.mp hc
    have := h y x (by rw [← hlen]; exact hy) (by rw [← hl]; exact hx)
    simp only [Board.read, Row.read, List.get?_eq_getElem?, List.getElem?_eq_getElem hy,
      List.getElem?_eq_getElem hx] at this
    cases hv : (g.board[y])[x] with
    | none => rfl
    | some v => rw [hv] at this; simpa using this

end ConnectFour

namespace ConnectFour

/-! ## Full columns and placements -/

theorem handleClick_dense (g : Game) (x : Nat) (hg : g.Dense) (hx : x < g.WIDTH) :
    (g.handleClick x).1.Dense := by
  cases hs : g.findSpotForCol x with
  | none => rw [handleClick_of_none g x hs]; exact hg
  | some y =>
    have hp := place_dense g y x hg hx
    refine ⟨?_, ?_⟩
    · exact handleClick_hasRows g x hg.1
    · rw [handleClick_board g x y hs, (handleClick_fields g x).1]
      exact hp.2

/-- C3: for a state with a board of `HEIGHT` rows and a column `x` in
`[0, WIDTH)` all of whose cells are occupied, `handleClick` on `x` is a no-op:
the whole game state (every cell of the board and the current player) is
unchanged and the click is ignored. -/
theorem handleClick_full_column (g : Game) (x : Nat) (_hg : g.HasRows) (_hx : x < g.WIDTH)
    (hfull : ∀ y, y < g.HEIGHT → g.occupied y x) :
    g.handleClick x = (g, Outcome.ignored) ∧
      (g.handleClick x).1.board = g.board ∧ (g.handleClick x).1.currPlayer = g.currPlayer := by
  have h : g.findSpotForCol x = none := (findSpotLoop_none g.board x g.HEIGHT).mpr hfull
  rw [handleClick_of_none g x h]
  exact ⟨rfl, rfl, rfl⟩

/-- C4: for a state with a board of `HEIGHT` rows and a column `x` in
`[0, WIDTH)` that is not full, `handleClick` on `x` changes exactly one cell:
the cell `(findSpotForCol(x), x)`, which was empty before and holds the current
player afterwards; every other cell keeps its value; after any sequence of
calls every cell that held a player still holds that player; and a dense
`HEIGHT x WIDTH` board stays one. -/
theorem handleClick_places_one (g : Game) (x : Nat) (hg : g.HasRows) (hx : x < g.WIDTH)
    (hnf : ¬ ∀ y, y < g.HEIGHT → g.occupied y x) :
    ∃ y, g.findSpotForCol x = some y ∧ y < g.HEIGHT ∧
      g.board.read y x = Value.undefined ∧
      (g.handleClick x).1.board.read y x = Value.player g.currPlayer ∧
      (∀ y' x', (y', x') ≠ (y, x) →
        (g.handleClick x).1.board.read y' x' = g.board.read y' x') ∧
      (∀ (xs : List Nat) (y' x' : Nat) (p : PlayerRef),
        g.board.read y' x' = Value.player p →
          (g.clicks xs).board.read y' x' = Value.player p) ∧
      (g.Dense → (g.handleClick x).1.Dense) := by
  cases hs : g.findSpotForCol x with
  | none => exact absurd ((findSpotLoop_none g.board x g.HEIGHT).mp hs) hnf
  | some y =>
    obtain ⟨hy, he⟩ := findSpotForCol_lt g x y hs
    have hlen : y < g.board.length := by rw [hg]; exact hy
    refine ⟨y, rfl, hy, he, ?_, ?_, ?_, fun hd => handleClick_dense g x hd hx⟩
    · rw [handleClick_board g x y hs, Board.cellRead_write _ _ _ _ _ _ hlen]
      simp
    · intro y' x' hne
      rw [handleClick_board g x y hs, Board.cellRead_write _ _ _ _ _ _ hlen]
      have : ¬ (y' = y ∧ x' = x) := by
        rintro ⟨h1, h2⟩
        exact hne (by rw [h1, h2])
      rw [if_neg this]
    · intro xs y' x' p h
      exact clicks_keeps xs g hg y' x' p h

/-! ## The gravity invariant -/

theorem Value.truthy_iff (v : Value) : v.truthy = true ↔ ∃ p, v = Value.player p := by
  cases v <;> simp [Value.truthy]

theorem handleClick_occupied (g : Game) (x : Nat) (hg : g.HasRows) (y' x' : Nat)
    (h : g.occupied y' x') : (g.handleClick x).1.occupied y' x' := by
  obtain ⟨p, hp⟩ := (Value.truthy_iff _).mp h
  exact (Value.truthy_iff _).mpr ⟨p, handleClick_keeps g x hg y' x' p hp⟩

theorem new_read (p1 p2 : PlayerRef) (W H y x : Nat) :
    (Game.new p1 p2 W H).board.read y x = Value.undefined := by
  simp only [Game.new, makeBoard, Board.read, Row.read, List.get?_eq_getElem?,
    List.getElem?_replicate]
  by_cases hy : y < H
  · by_cases hx : x < W
    · simp [hy, hx]
    · simp [hy, hx, List.getElem?_replicate]
  · simp [hy]

theorem handleClick_gravity (g : Game) (x : Nat) (hg : g.HasRows)
    (hgrav : ∀ y x', g.occupied y x' → y < g.HEIGHT - 1 → g.occupied (y + 1) x') :
    ∀ y x', (g.handleClick x).1.occupied y x' → y < (g.handleClick x).1.HEIGHT - 1 →
      (g.handleClick x).1.occupied (y + 1) x' := by
  intro y x' hocc hy
  rw [(handleClick_fields g x).2.1] at hy
  cases hs : g.findSpotForCol x with
  | none =>
    rw [handleClick_of_none g x hs] at hocc ⊢
    exact hgrav y x' hocc hy
  | some y0 =>
    obtain ⟨h1, _, h3⟩ := (findSpotLoop_some g.board x g.HEIGHT y0).mp hs
    have hlen : y0 < g.board.length := by rw [hg]; exact h1
    by_cases hc : y = y0 ∧ x' = x
    · obtain ⟨e1, e2⟩ := hc
      subst e1; subst e2
      exact handleClick_occupied g x' hg _ _ (h3 (y + 1) (by omega) (by omega))
    · have hold : g.occupied y x' := by
        unfold Game.occupied at hocc ⊢
        rw [handleClick_board g x y0 hs, Board.cellRead_write _ _ _ _ _ _ hlen, if_neg hc] at hocc
        exact hocc
      exact handleClick_occupied g x hg _ _ (hgrav y x' hold hy)

theorem clicks_gravity (xs : List Nat) :
    ∀ g : Game, g.HasRows →
      (∀ y x', g.occupied y x' → y < g.HEIGHT - 1 → g.occupied (y + 1) x') →
      ∀ y x', (g.clicks xs).occupied y x' → y < (g.clicks xs).HEIGHT - 1 →
        (g.clicks xs).occupied (y + 1) x' := by
  induction xs with
  | nil => intro g _ h; exact h
  | cons x xs ih =>
    intro g hg h
    exact ih _ (handleClick_hasRows g x hg) (handleClick_gravity g x hg h)

theorem clicks_fields (xs : List Nat) :
    ∀ g : Game, (g.clicks xs).WIDTH = g.WIDTH ∧ (g.clicks xs).HEIGHT = g.HEIGHT ∧
      (g.clicks xs).players = g.players := by
  induction xs with
  | nil => intro g; exact ⟨rfl, rfl, rfl⟩
  | cons x xs ih =>
    intro g
    obtain ⟨h1, h2, h3⟩ := ih (g.handleClick x).1
    obtain ⟨k1, k2, k3⟩ := handleClick_fields g x
    exact ⟨h1.trans k1, h2.trans k2, h3.trans k3⟩

/-- C7 (gravity): in every state reached from the board of a new game by calls
of `handleClick` on columns in `[0, WIDTH)`, if the cell `(y, x)` is occupied
and `y < HEIGHT - 1` then the cell `(y + 1, x)` is occupied. -/
theorem gravity_invariant (p1 p2 : PlayerRef) (W H : Nat) (xs : List Nat)
    (_hxs : ∀ x ∈ xs, x < W) (y x : Nat)
    (hocc : ((Game.new p1 p2 W H).clicks xs).occupied y x) (hy : y < H - 1) :
    ((Game.new p1 p2 W H).clicks xs).occupied (y + 1) x := by
  refine clicks_gravity xs (Game.new p1 p2 W H) (new_dense p1 p2 W H).hasRows ?_ y x hocc ?_
  · intro y' x' h
    unfold Game.occupied at h
    rw [new_read] at h
    exact Bool.noConfusion h
  · rw [(clicks_fields xs _).2.1]
    exact hy

/-- Witness for C7: after the clicks 3, 3, 4 on the default board the cell
`(4, 3)` is occupied, and so is the cell `(5, 3)` below it. -/
theorem gravity_invariant_witness :
    (∀ x ∈ [3, 3, 4], x < 7) ∧ ((Game.new 1 2 7 6).clicks [3, 3, 4]).occupied 4 3 ∧ 4 < 6 - 1 ∧
      ((Game.new 1 2 7 6).clicks [3, 3, 4]).occupied (4 + 1) 3 :=
  ⟨by decide, by decide, by decide,
    gravity_invariant 1 2 7 6 [3, 3, 4] (by decide) 4 3 (by decide) (by decide)⟩

end ConnectFour

namespace ConnectFour

/-! ## Outcomes of a move -/

theorem handleClick_of_some (g : Game) (x y : Nat) (hx : x < g.WIDTH)
    (hs : g.findSpotForCol x = some y) :
    g.handleClick x =
      if (g.place y x).checkForWin then (g.place y x, Outcome.won g.currPlayer)
      else if (g.place y x).boardEvery then (g.place y x, Outcome.tie)
      else ((g.place y x).switchPlayer, Outcome.continuing) := by
  have hy := (findSpotForCol_lt g x y hs).1
  simp [Game.handleClick, hs, Game.hasTableCell, hx, hy, Game.place]

/-- C8: when `handleClick` places a piece (on a board of `HEIGHT` rows, column
in range) and `checkForWin` is then true, the outcome is a win for the player
who moved, the state is the one after the placement with the current player not
advanced, and the outcome is not a tie, also when the placement filled the
board (the tie test is not reached). -/
theorem handleClick_win (g : Game) (x y : Nat) (_hg : g.HasRows) (hx : x < g.WIDTH)
    (hs : g.findSpotForCol x = some y) (hw : (g.place y x).checkForWin = true) :
    g.handleClick x = (g.place y x, Outcome.won g.currPlayer) ∧
      (g.handleClick x).1.currPlayer = g.currPlayer ∧
      (g.handleClick x).2 ≠ Outcome.tie ∧
      ((g.place y x).boardEvery = true → (g.handleClick x).2 = Outcome.won g.currPlayer) := by
  have h := handleClick_of_some g x y hx hs
  rw [if_pos hw] at h
  rw [h]
  exact ⟨rfl, rfl, fun e => Outcome.noConfusion e, fun _ => rfl⟩

/-- Witness for C8: on a 5-wide, 2-high board, after the clicks
0, 0, 1, 1, 2, 2, 4, 3, 4 the click on column 3 fills the last empty cell and
completes the top row for player 2. -/
theorem handleClick_win_witness :
    ((Game.new 1 2 5 2).clicks [0, 0, 1, 1, 2, 2, 4, 3, 4]).boardEvery = false ∧
    ((Game.new 1 2 5 2).clicks [0, 0, 1, 1, 2, 2, 4, 3, 4]).currPlayer = 2 ∧
    ((Game.new 1 2 5 2).clicks [0, 0, 1, 1, 2, 2, 4, 3, 4]).checkForWin = false ∧
    ((((Game.new 1 2 5 2).clicks [0, 0, 1, 1, 2, 2, 4, 3, 4]).place 0 3).boardEvery = true) ∧
    (((Game.new 1 2 5 2).clicks [0, 0, 1, 1, 2, 2, 4, 3, 4]).handleClick 3).2 = Outcome.won 2 ∧
    (((Game.new 1 2 5 2).clicks [0, 0, 1, 1, 2, 2, 4, 3, 4]).handleClick 3).1.currPlayer = 2 :=
  ⟨by decide, by decide, by decide, by decide,
    (handleClick_win ((Game.new 1 2 5 2).clicks [0, 0, 1, 1, 2, 2, 4, 3, 4]) 3 0
      (by decide) (by decide) (by decide) (by decide)).2.2.2 (by decide),
    (handleClick_win ((Game.new 1 2 5 2).clicks [0, 0, 1, 1, 2, 2, 4, 3, 4]) 3 0
      (by decide) (by decide) (by decide) (by decide)).2.1⟩

/-- C9: when `handleClick` places a piece on a dense `HEIGHT x WIDTH` board
(column in range) and `checkForWin` is then false, the outcome is a tie if and
only if every cell of the grid is occupied after the move; the tie test itself
is true exactly when every cell of the grid is occupied (on the board after the
move and on any dense board); and on a tie the state is the one after the
placement, with the current player not advanced. -/
theorem handleClick_tie (g : Game) (x y : Nat) (hg : g.Dense) (hx : x < g.WIDTH)
    (hs : g.findSpotForCol x = some y) (hnw : (g.place y x).checkForWin = false) :
    ((g.handleClick x).2 = Outcome.tie ↔
      ∀ y' x', y' < g.HEIGHT → x' < g.WIDTH → (g.handleClick x).1.occupied y' x') ∧
    ((g.place y x).boardEvery = true ↔
      ∀ y' x', y' < g.HEIGHT → x' < g.WIDTH → (g.place y x).occupied y' x') ∧
    (g.boardEvery = true ↔ ∀ y' x', y' < g.HEIGHT → x' < g.WIDTH → g.occupied y' x') ∧
    ((g.handleClick x).2 = Outcome.tie →
      (g.handleClick x).1 = g.place y x ∧ (g.handleClick x).1.currPlayer = g.currPlayer) := by
  have h := handleClick_of_some g x y hx hs
  rw [hnw] at h
  simp only [Bool.false_eq_true, if_false] at h
  have hfull := boardEvery_iff (g.place y x) (place_dense g y x hg hx)
  have hfull' : (g.place y x).boardEvery = true ↔
      ∀ y' x', y' < g.HEIGHT → x' < g.WIDTH → (g.place y x).occupied y' x' := hfull
  refine ⟨?_, hfull', boardEvery_iff g hg, ?_⟩
  · by_cases hb : (g.place y x).boardEvery = true
    · rw [if_pos hb] at h
      rw [h]
      exact ⟨fun _ => hfull'.mp hb, fun _ => rfl⟩
    · rw [if_neg hb] at h
      rw [h]
      constructor
      · intro e; exact Outcome.noConfusion e
      · intro hall
        exact absurd (hfull'.mpr hall) hb
  · intro ht
    by_cases hb : (g.place y x).boardEvery = true
    · rw [if_pos hb] at h
      rw [h]
      exact ⟨rfl, rfl⟩
    · rw [if_neg hb] at h
      rw [h] at ht
      exact Outcome.noConfusion ht

end ConnectFour

namespace ConnectFour

/-- Witness for C9: on the default board after `fortyOneClicks` the click on
column 6 fills the last cell without completing a line: the outcome is a tie
and player 2, who moved, is still the current player. -/
theorem handleClick_tie_witness :
    ((Game.newDefault 1 2).clicks fortyOneClicks).Dense ∧
    ((Game.newDefault 1 2).clicks fortyOneClicks).findSpotForCol 6 = some 0 ∧
    ((((Game.newDefault 1 2).clicks fortyOneClicks).place 0 6).checkForWin = false) ∧
    (((Game.newDefault 1 2).clicks fortyOneClicks).handleClick 6).2 = Outcome.tie ∧
    (((Game.newDefault 1 2).clicks fortyOneClicks).handleClick 6).1.currPlayer = 2 :=
  ⟨by decide, by decide, by decide, by decide,
    ((handleClick_tie ((Game.newDefault 1 2).clicks fortyOneClicks) 6 0
      (by decide) (by decide) (by decide) (by decide)).2.2.2 (by decide)).2⟩

end ConnectFour

namespace ConnectFour

theorem handleClick_continuing_player (g : Game) (x : Nat)
    (hc : (g.handleClick x).2 = Outcome.continuing) :
    (g.handleClick x).1.currPlayer =
        (if g.currPlayer = g.players.1 then g.players.2 else g.players.1) ∧
      (g.handleClick x).1.players = g.players := by
  unfold Game.handleClick at hc ⊢
  cases hs : g.findSpotForCol x with
  | none => rw [hs] at hc; exact Outcome.noConfusion hc
  | some y =>
    rw [hs] at hc
    simp only at hc ⊢
    split_ifs at hc ⊢ <;> simp_all [Game.switchPlayer, Game.place]

/-- C10: when `handleClick` places a piece and the outcome is neither a win nor
a tie (the move is continuing), the current player becomes the other player:
`players[1]` if it was `players[0]`, and `players[0]` if it was `players[1]`;
for two distinct players the new current player differs from the old one; and
a second continuing move restores the player to move. -/
theorem handleClick_switches (g : Game) (x : Nat) (_hg : g.HasRows)
    (hcur : g.currPlayer = g.players.1 ∨ g.currPlayer = g.players.2)
    (hc : (g.handleClick x).2 = Outcome.continuing) :
    (g.currPlayer = g.players.1 → (g.handleClick x).1.currPlayer = g.players.2) ∧
    (g.currPlayer = g.players.2 → (g.handleClick x).1.currPlayer = g.players.1) ∧
    (g.players.1 ≠ g.players.2 → (g.handleClick x).1.currPlayer ≠ g.currPlayer) ∧
    (∀ x', ((g.handleClick x).1.handleClick x').2 = Outcome.continuing →
      ((g.handleClick x).1.handleClick x').1.currPlayer = g.currPlayer) := by
  obtain ⟨h1, h2⟩ := handleClick_continuing_player g x hc
  refine ⟨?_, ?_, ?_, ?_⟩
  · intro e
    rw [h1, if_pos e]
  · intro e
    rw [h1]
    by_cases e' : g.currPlayer = g.players.1
    · rw [if_pos e', ← e, e']
    · rw [if_neg e']
  · intro hne
    rw [h1]
    rcases hcur with e | e
    · rw [if_pos e, e]; exact fun k => hne k.symm
    · have e' : ¬ g.currPlayer = g.players.1 := by rw [e]; exact fun k => hne k.symm
      rw [if_neg e', e]; exact hne
  · intro x' hc'
    obtain ⟨k1, _⟩ := handleClick_continuing_player (g.handleClick x).1 x' hc'
    rw [k1, h2, h1]
    rcases hcur with e | e
    · rw [if_pos e]
      by_cases e2 : g.players.2 = g.players.1
      · rw [if_pos e2, e, e2]
      · rw [if_neg e2, e]
    · by_cases e' : g.currPlayer = g.players.1
      · rw [if_pos e']
        have e2 : g.players.2 = g.players.1 := by rw [← e, e']
        rw [if_pos e2, e]
      · rw [if_neg e', if_pos rfl, e]

/-- Witness for C10: on the default board player 1 clicks column 3, player 2
clicks column 3, and player 1 is to move again. -/
theorem handleClick_switches_witness :
    ((Game.newDefault 1 2).handleClick 3).2 = Outcome.continuing ∧
    ((Game.newDefault 1 2).handleClick 3).1.currPlayer = 2 ∧
    ((Game.newDefault 1 2).handleClick 3).1.currPlayer ≠ (Game.newDefault 1 2).currPlayer ∧
    (((Game.newDefault 1 2).handleClick 3).1.handleClick 3).1.currPlayer = 1 :=
  ⟨by decide,
    (handleClick_switches (Game.newDefault 1 2) 3 (by decide) (by decide) (by decide)).1
      (by decide),
    (handleClick_switches (Game.newDefault 1 2) 3 (by decide) (by decide) (by decide)).2.2.1
      (by decide),
    (handleClick_switches (Game.newDefault 1 2) 3 (by decide) (by decide) (by decide)).2.2.2 3
      (by decide)⟩

/-! ## Clicks outside the grid -/

theorem dense_read_outside (g : Game) (hg : g.Dense) (y x : Nat) (hx : g.WIDTH ≤ x) :
    g.board.read y x = Value.undefined := by
  unfold Board.read
  rw [List.get?_eq_getElem?]
  cases h : g.board[y]? with
  | none => rfl
  | some r =>
    have hr : r ∈ g.board := List.mem_iff_getElem?.mpr ⟨y, h⟩
    have hl := (hg.2 r hr).1
    simp only [Row.read, List.get?_eq_getElem?]
    rw [List.getElem?_eq_none (by rw [hl]; exact hx)]

/-- C6 (as the code behaves): `handleClick` has no range check.  On a dense
`HEIGHT x WIDTH` board with `HEIGHT >= 1` and a column index `x` with
`WIDTH <= x <= 2^32 - 2` (an array index outside the grid), `findSpotForCol`
reads the absent cell `(HEIGHT-1, x)` as empty and returns `HEIGHT-1`;
`handleClick` stores the current player at index `x` of row `HEIGHT-1`, which
grows that row to length `x + 1`, and then fails in `placeInTable`, before any
win or tie test.  Every cell with a column index below `WIDTH` and the current
player are unchanged. -/
theorem handleClick_out_of_range (g : Game) (x : Nat) (hg : g.Dense) (hH : 0 < g.HEIGHT)
    (hx : g.WIDTH ≤ x) (_hidx : x ≤ 2 ^ 32 - 2) :
    g.findSpotForCol x = some (g.HEIGHT - 1) ∧
    g.handleClick x = (g.place (g.HEIGHT - 1) x, Outcome.threw) ∧
    (g.handleClick x).1.board.read (g.HEIGHT - 1) x = Value.player g.currPlayer ∧
    ((g.handleClick x).1.board[g.HEIGHT - 1]?).map List.length = some (x + 1) ∧
    (∀ y' x', x' < g.WIDTH → (g.handleClick x).1.board.read y' x' = g.board.read y' x') ∧
    (g.handleClick x).1.currPlayer = g.currPlayer := by
  have hs : g.findSpotForCol x = some (g.HEIGHT - 1) := by
    unfold Game.findSpotForCol
    obtain ⟨n, hn⟩ : ∃ n, g.HEIGHT = n + 1 := ⟨g.HEIGHT - 1, by omega⟩
    rw [hn]
    simp [findSpotLoop, dense_read_outside g hg n x hx, Value.truthy]
  have hlen : g.HEIGHT - 1 < g.board.length := by rw [hg.1]; omega
  have hc : g.handleClick x = (g.place (g.HEIGHT - 1) x, Outcome.threw) := by
    have : ¬ x < g.WIDTH := Nat.not_lt.mpr hx
    simp [Game.handleClick, hs, Game.hasTableCell, this]
  refine ⟨hs, hc, ?_, ?_, ?_, ?_⟩
  · rw [hc]
    show (g.board.write _ _ _).read _ _ = _
    rw [Board.cellRead_write _ _ _ _ _ _ hlen]
    simp
  · rw [hc]
    show ((g.board.write _ _ _)[g.HEIGHT - 1]?).map List.length = _
    unfold Board.write
    rw [List.getElem?_modify_eq, List.getElem?_eq_getElem hlen]
    have hl := (hg.2 _ (List.getElem_mem hlen)).1
    have hnl : ¬ x < g.WIDTH := Nat.not_lt.mpr hx
    simp only [Option.map_eq_map, Option.map_some', Row.write, hl, if_neg hnl,
      List.length_append, List.length_replicate, List.length_singleton, Option.some.injEq]
    omega
  · intro y' x' hx'
    rw [hc]
    show (g.board.write _ _ _).read _ _ = _
    rw [Board.cellRead_write _ _ _ _ _ _ hlen]
    have : ¬ (y' = g.HEIGHT - 1 ∧ x' = x) := by
      rintro ⟨_, e⟩
      omega
    rw [if_neg this]
  · rw [hc]; rfl

/-- Witness for the amended C6: the click on column 9 of the default board. -/
theorem handleClick_out_of_range_witness :
    (Game.newDefault 1 2).Dense ∧ 0 < (Game.newDefault 1 2).HEIGHT ∧
    (Game.newDefault 1 2).WIDTH ≤ 9 ∧ 9 ≤ 2 ^ 32 - 2 ∧
    ((Game.newDefault 1 2).handleClick 9).1.board.read (6 - 1) 9 = Value.player 1 :=
  ⟨by decide, by decide, by decide, by decide,
    (handleClick_out_of_range (Game.newDefault 1 2) 9 (by decide) (by decide) (by decide)
      (by decide)).2.2.1⟩

/-- C6 as stated fails: on the default 7-wide, 6-high board the click on column
index 7 changes the board: row 5 grows from 7 to 8 elements and its index 7,
outside the grid, holds player 1. -/
theorem handleClick_out_of_range_counterexample :
    ¬ (7 < (Game.newDefault 1 2).WIDTH) ∧
    ((Game.newDefault 1 2).handleClick 7).1.board ≠ (Game.newDefault 1 2).board ∧
    ((Game.newDefault 1 2).board.map List.length) = [7, 7, 7, 7, 7, 7] ∧
    (((Game.newDefault 1 2).handleClick 7).1.board.map List.length) = [7, 7, 7, 7, 7, 8] ∧
    ((Game.newDefault 1 2).handleClick 7).1.board.read 5 7 = Value.player 1 := by
  decide

end ConnectFour

namespace ConnectFour

/-! ## Further witnesses and the end of the game -/

theorem mem_columnMajorAnchors (W H y x : Nat) :
    (y, x) ∈ columnMajorAnchors W H ↔ (y < H ∧ x < W) := by
  simp only [columnMajorAnchors, List.mem_flatMap, List.mem_map, List.mem_range, Prod.mk.injEq]
  constructor
  · rintro ⟨a, ha, b, hb, rfl, rfl⟩
    exact ⟨hb, ha⟩
  · rintro ⟨hy, hx⟩
    exact ⟨x, hx, y, hy, rfl, rfl⟩

/-- Witness for C1: in `wonGame` player 1 has a horizontal line anchored at
`(5, 0)`; `checkForWin` is true, the specification finds a line, and the scan
by columns with the directions in reverse order is true as well. -/
theorem checkForWin_spec_witness :
    wonGame.HasRows ∧ wonGame.checkForWin = true ∧
    (∃ (y x : Nat) (d : Dir), y < wonGame.HEIGHT ∧ x < wonGame.WIDTH ∧
      ∀ i : Nat, i < 4 →
        wonGame.inGrid (d.specCell y x i) ∧ wonGame.holds (d.specCell y x i) wonGame.currPlayer) ∧
    wonGame.scanIn (columnMajorAnchors 7 6)
      [Dir.downLeft, Dir.downRight, Dir.vertical, Dir.horizontal] = wonGame.checkForWin :=
  ⟨by decide, by decide,
    (checkForWin_spec wonGame (by decide)).1.mp (by decide),
    (checkForWin_spec wonGame (by decide)).2 (columnMajorAnchors 7 6)
      [Dir.downLeft, Dir.downRight, Dir.vertical, Dir.horizontal]
      (fun y x => mem_columnMajorAnchors 7 6 y x)
      (fun d => by cases d <;> simp)⟩

/-- Witness for C3: after six clicks on column 2 of the default board the
column is full, and a seventh click on it changes nothing. -/
theorem handleClick_full_column_witness :
    ((Game.newDefault 1 2).clicks [2, 2, 2, 2, 2, 2]).HasRows ∧
    (∀ y, y < 6 → ((Game.newDefault 1 2).clicks [2, 2, 2, 2, 2, 2]).occupied y 2) ∧
    ((Game.newDefault 1 2).clicks [2, 2, 2, 2, 2, 2]).handleClick 2 =
      ((Game.newDefault 1 2).clicks [2, 2, 2, 2, 2, 2], Outcome.ignored) :=
  ⟨by decide, by decide,
    (handleClick_full_column ((Game.newDefault 1 2).clicks [2, 2, 2, 2, 2, 2]) 2
      (by decide) (by decide) (by decide)).1⟩

/-- Witness for C4: after two clicks on column 2 of the default board a third
click on it lands in row 3. -/
theorem handleClick_places_one_witness :
    ((Game.newDefault 1 2).clicks [2, 2]).HasRows ∧
    ¬ (∀ y, y < 6 → ((Game.newDefault 1 2).clicks [2, 2]).occupied y 2) ∧
    ((Game.newDefault 1 2).clicks [2, 2]).findSpotForCol 2 = some 3 ∧
    ∃ y, ((Game.newDefault 1 2).clicks [2, 2]).findSpotForCol 2 = some y ∧
      (((Game.newDefault 1 2).clicks [2, 2]).handleClick 2).1.board.read y 2 = Value.player 1 :=
  ⟨by decide, by decide, by decide,
    (handleClick_places_one ((Game.newDefault 1 2).clicks [2, 2]) 2
      (by decide) (by decide) (by decide)).imp fun _ h => ⟨h.1, h.2.2.2.1⟩⟩

theorem step_click_not_listening (pg : Page) (x : Nat) (h : pg.listening = false) :
    pg.step (Event.click x) = (pg, none) := by
  simp [Page.step, h]

theorem step_timeout_pending (pg : Page) (h : pg.timers ≠ 0) :
    pg.step Event.timeout = (⟨pg.game, false, pg.timers - 1⟩, none) := by
  simp [Page.step, h]

theorem step_timeout_none (pg : Page) (h : pg.timers = 0) :
    pg.step Event.timeout = (pg, none) := by
  simp [Page.step, h]

theorem step_click_listening (pg : Page) (x : Nat) (h : pg.listening = true) :
    (pg.step (Event.click x)).1.game = (pg.game.handleClick x).1 ∧
      (((∃ p, (pg.game.handleClick x).2 = Outcome.won p) ∨
          (pg.game.handleClick x).2 = Outcome.tie) →
        (pg.step (Event.click x)).1.timers = pg.timers + 1) := by
  simp only [Page.step, h, if_true]
  cases h2 : (pg.game.handleClick x).2 <;> simp

theorem run_not_listening (es : List Event) :
    ∀ pg : Page, pg.listening = false →
      (pg.run es).listening = false ∧ (pg.run es).game = pg.game := by
  induction es with
  | nil => intro pg h; exact ⟨h, rfl⟩
  | cons e es ih =>
    intro pg h
    have hstep : (pg.step e).1.listening = false ∧ (pg.step e).1.game = pg.game := by
      cases e with
      | click x => rw [step_click_not_listening pg x h]; exact ⟨h, rfl⟩
      | timeout =>
        by_cases ht : pg.timers = 0
        · rw [step_timeout_none pg ht]; exact ⟨h, rfl⟩
        · rw [step_timeout_pending pg ht]; exact ⟨rfl, rfl⟩
    obtain ⟨h1, h2⟩ := ih (pg.step e).1 hstep.1
    exact ⟨h1, h2.trans hstep.2⟩

theorem handleClick_tie_full (g : Game) (x : Nat) (hg : g.Dense) (hx : x < g.WIDTH)
    (ht : (g.handleClick x).2 = Outcome.tie) :
    ∀ y' x', y' < g.HEIGHT → x' < g.WIDTH → (g.handleClick x).1.occupied y' x' := by
  cases hs : g.findSpotForCol x with
  | none => rw [handleClick_of_none g x hs] at ht; exact Outcome.noConfusion ht
  | some y =>
    have h := handleClick_of_some g x y hx hs
    by_cases hw : (g.place y x).checkForWin = true
    · rw [if_pos hw] at h; rw [h] at ht; exact Outcome.noConfusion ht
    · rw [if_neg hw] at h
      by_cases hb : (g.place y x).boardEvery = true
      · rw [if_pos hb] at h
        rw [h]
        exact (boardEvery_iff (g.place y x) (place_dense g y x hg hx)).mp hb
      · rw [if_neg hb] at h; rw [h] at ht; exact Outcome.noConfusion ht

/-- C5 (as the code behaves): the game is ended by removing the click listener,
which `endGame` does in a timeout callback.  When a handled click produces a
win or a tie, a callback is pending; once it has fired, the listener is gone
and, whatever events follow, a click on any column is not handled: the game
(board and current player) stays the one left by the final move and nothing is
reported.  After a tie on a dense board the grid is full, so `handleClick` on
any column in range is a no-op as well. -/
theorem clicks_after_end_unhandled (pg : Page) (x : Nat) (hl : pg.listening = true)
    (hend : (∃ p, (pg.game.handleClick x).2 = Outcome.won p) ∨
      (pg.game.handleClick x).2 = Outcome.tie) :
    (pg.step (Event.click x)).1.game = (pg.game.handleClick x).1 ∧
    0 < (pg.step (Event.click x)).1.timers ∧
    ((pg.step (Event.click x)).1.step Event.timeout).1.listening = false ∧
    (∀ (es : List Event) (x' : Nat),
      ((((pg.step (Event.click x)).1.step Event.timeout).1.run es).step (Event.click x')) =
        ((((pg.step (Event.click x)).1.step Event.timeout).1.run es), none) ∧
      (((pg.step (Event.click x)).1.step Event.timeout).1.run es).game =
        (pg.game.handleClick x).1) ∧
    (pg.game.Dense → x < pg.game.WIDTH → (pg.game.handleClick x).2 = Outcome.tie →
      ∀ x', x' < pg.game.WIDTH →
        (pg.game.handleClick x).1.handleClick x' = ((pg.game.handleClick x).1, Outcome.ignored)) := by
  have hstep : (pg.step (Event.click x)).1.game = (pg.game.handleClick x).1 ∧
      0 < (pg.step (Event.click x)).1.timers := by
    obtain ⟨h1, h2⟩ := step_click_listening pg x hl
    refine ⟨h1, ?_⟩
    rw [h2 hend]
    exact Nat.succ_pos _
  have hto : ((pg.step (Event.click x)).1.step Event.timeout).1.listening = false ∧
      ((pg.step (Event.click x)).1.step Event.timeout).1.game = (pg.game.handleClick x).1 := by
    have hne : (pg.step (Event.click x)).1.timers ≠ 0 := Nat.pos_iff_ne_zero.mp hstep.2
    rw [step_timeout_pending _ hne]
    exact ⟨rfl, hstep.1⟩
  refine ⟨hstep.1, hstep.2, hto.1, ?_, ?_⟩
  · intro es x'
    obtain ⟨h1, h2⟩ := run_not_listening es _ hto.1
    exact ⟨step_click_not_listening _ x' h1, h2.trans hto.2⟩
  · intro hd hx ht x' hx'
    apply handleClick_of_none
    apply (findSpotLoop_none _ _ _).mpr
    intro y hy
    rw [(handleClick_fields pg.game x).2.1] at hy
    exact handleClick_tie_full pg.game x hd hx ht y x' hy hx'

/-- Witness for the amended C5: the winning click on column 3 from
`beforeWinPage`, then the timeout, then clicks on columns 4 and 0. -/
theorem clicks_after_end_unhandled_witness :
    beforeWinPage.listening = true ∧
    (beforeWinPage.game.handleClick 3).2 = Outcome.won 1 ∧
    (((beforeWinPage.step (Event.click 3)).1.step Event.timeout).1.run
        [Event.click 4, Event.click 0]).game = (beforeWinPage.game.handleClick 3).1 :=
  ⟨by decide, by decide,
    ((clicks_after_end_unhandled beforeWinPage 3 (by decide)
      (Or.inl ⟨1, by decide⟩)).2.2.2.1 [Event.click 4, Event.click 0] 4).2⟩

/-- C5 as stated fails on the code: the seventh click (column 3) wins for player 1 and
`endGame` only schedules the removal of the click listener; a click on column 4
that arrives before the timeout fires is still handled: it places a piece of
player 1 in the empty cell `(5, 4)` and calls `endGame` again; `handleClick`
itself has no test for a finished game.  Once the timeout has fired a click is
left without effect, and no indication is reported for it. -/
theorem click_after_win_counterexample :
    (beforeWinPage.step (Event.click 3)).2 = some (Outcome.won 1) ∧
    wonPage.listening = true ∧ wonPage.timers = 1 ∧
    wonPage.game.checkForWin = true ∧
    wonPage.game.board.read 5 4 = Value.undefined ∧
    (wonPage.step (Event.click 4)).2 = some (Outcome.won 1) ∧
    (wonPage.step (Event.click 4)).1.game.board.read 5 4 = Value.player 1 ∧
    (wonPage.step (Event.click 4)).1.game.board ≠ wonPage.game.board ∧
    (wonPage.game.handleClick 4).1.board ≠ wonPage.game.board ∧
    ((wonPage.step Event.timeout).1.step (Event.click 4)) =
      ((wonPage.step Event.timeout).1, none) := by
  decide

end ConnectFour

namespace ConnectFour

/-! ## Mirroring and the new game -/

theorem legalAndMine_cast (g : Game) (a b : Int) :
    g.legalAndMine (a, b) = true ↔
      ∃ y x : Nat, a = (y : Int) ∧ b = (x : Int) ∧ y < g.HEIGHT ∧ x < g.WIDTH ∧
        g.board.read y x = Value.player g.currPlayer := by
  simp only [Game.legalAndMine, Bool.and_eq_true, decide_eq_true_eq]
  constructor
  · rintro ⟨⟨⟨⟨h1, h2⟩, h3⟩, h4⟩, h5⟩
    refine ⟨a.toNat, b.toNat, by omega, by omega, by omega, by omega, h5⟩
  · rintro ⟨y, x, rfl, rfl, hy, hx, h⟩
    refine ⟨⟨⟨⟨by omega, by omega⟩, by omega⟩, by omega⟩, ?_⟩
    simpa using h

/-- The four cells tested for a direction, with natural-number coordinates. -/
theorem win_line_nat (g : Game) (d : Dir) (y x : Nat) :
    g.win (d.line y x) = true ↔
      match d with
      | .horizontal => x + 3 < g.WIDTH ∧ y < g.HEIGHT ∧
          ∀ i, i < 4 → g.board.read y (x + i) = Value.player g.currPlayer
      | .vertical => y + 3 < g.HEIGHT ∧ x < g.WIDTH ∧
          ∀ i, i < 4 → g.board.read (y + i) x = Value.player g.currPlayer
      | .downRight => y + 3 < g.HEIGHT ∧ x + 3 < g.WIDTH ∧
          ∀ i, i < 4 → g.board.read (y + i) (x + i) = Value.player g.currPlayer
      | .downLeft => y + 3 < g.HEIGHT ∧ 3 ≤ x ∧ x < g.WIDTH ∧
          ∀ i, i < 4 → g.board.read (y + i) (x - i) = Value.player g.currPlayer := by
  cases d
  all_goals
    simp only [Game.win, Dir.line, horiz, vert, diagDR, diagDL, List.all_cons, List.all_nil,
      Bool.and_true, Bool.and_eq_true, legalAndMine_cast]
    constructor
    · rintro ⟨⟨y0, x0, e0, f0, hy0, hx0, h0⟩, ⟨y1, x1, e1, f1, hy1, hx1, h1⟩,
        ⟨y2, x2, e2, f2, hy2, hx2, h2⟩, ⟨y3, x3, e3, f3, hy3, hx3, h3⟩⟩
      refine ⟨by omega, by omega, ?_⟩
      first
        | (refine ⟨by omega, ?_⟩
           intro i hi
           interval_cases i
           · have a : y + 0 = y0 := by omega
             have b : x - 0 = x0 := by omega
             rw [a, b]; exact h0
           · have a : y + 1 = y1 := by omega
             have b : x - 1 = x1 := by omega
             rw [a, b]; exact h1
           · have a : y + 2 = y2 := by omega
             have b : x - 2 = x2 := by omega
             rw [a, b]; exact h2
           · have a : y + 3 = y3 := by omega
             have b : x - 3 = x3 := by omega
             rw [a, b]; exact h3)
        | (intro i hi
           interval_cases i
           · have a : y = y0 := by omega
             have b : x = x0 := by omega
             simp only [Nat.add_zero]; rw [a, b]; exact h0
           · first
               | (have a : y = y1 := by omega
                  have b : x + 1 = x1 := by omega
                  rw [a, b]; exact h1)
               | (have a : y + 1 = y1 := by omega
                  have b : x = x1 := by omega
                  rw [a, b]; exact h1)
               | (have a : y + 1 = y1 := by omega
                  have b : x + 1 = x1 := by omega
                  rw [a, b]; exact h1)
           · first
               | (have a : y = y2 := by omega
                  have b : x + 2 = x2 := by omega
                  rw [a, b]; exact h2)
               | (have a : y + 2 = y2 := by omega
                  have b : x = x2 := by omega
                  rw [a, b]; exact h2)
               | (have a : y + 2 = y2 := by omega
                  have b : x + 2 = x2 := by omega
                  rw [a, b]; exact h2)
           · first
               | (have a : y = y3 := by omega
                  have b : x + 3 = x3 := by omega
                  rw [a, b]; exact h3)
               | (have a : y + 3 = y3 := by omega
                  have b : x = x3 := by omega
                  rw [a, b]; exact h3)
               | (have a : y + 3 = y3 := by omega
                  have b : x + 3 = x3 := by omega
                  rw [a, b]; exact h3))
    · intro h
      first
        | (obtain ⟨_, _, _, hd⟩ := h
           exact ⟨⟨_, _, by omega, by omega, by omega, by omega, hd 0 (by omega)⟩,
             ⟨_, _, by omega, by omega, by omega, by omega, hd 1 (by omega)⟩,
             ⟨_, _, by omega, by omega, by omega, by omega, hd 2 (by omega)⟩,
             ⟨_, _, by omega, by omega, by omega, by omega, hd 3 (by omega)⟩⟩)
        | (obtain ⟨_, _, hc⟩ := h
           exact ⟨⟨_, _, by omega, by omega, by omega, by omega, hc 0 (by omega)⟩,
             ⟨_, _, by omega, by omega, by omega, by omega, hc 1 (by omega)⟩,
             ⟨_, _, by omega, by omega, by omega, by omega, hc 2 (by omega)⟩,
             ⟨_, _, by omega, by omega, by omega, by omega, hc 3 (by omega)⟩⟩)

theorem checkForWin_iff_dir (g : Game) :
    g.checkForWin = true ↔
      ∃ (y x : Nat) (d : Dir), y < g.HEIGHT ∧ x < g.WIDTH ∧ g.win (d.line y x) = true := by
  rw [checkForWin_iff_winAt]
  constructor
  · rintro ⟨y, x, hy, hx, h⟩
    obtain ⟨d, hd⟩ := (winAt_iff g y x).mp h
    exact ⟨y, x, d, hy, hx, hd⟩
  · rintro ⟨y, x, d, hy, hx, hd⟩
    exact ⟨y, x, hy, hx, (winAt_iff g y x).mpr ⟨d, hd⟩⟩

theorem win_first_cell (g : Game) (d : Dir) (y x : Nat) (h : g.win (d.line y x) = true) :
    g.board.read y x = Value.player g.currPlayer := by
  rw [win_line_nat] at h
  cases d
  · simpa using h.2.2 0 (by omega)
  · simpa using h.2.2 0 (by omega)
  · simpa using h.2.2 0 (by omega)
  · simpa using h.2.2.2 0 (by omega)

theorem mirror_read (g : Game) (y x : Nat) (hx : x < g.WIDTH) :
    g.mirror.board.read y x = g.board.read y (g.WIDTH - 1 - x) := by
  simp only [Game.mirror, mirrorBoard, Board.read, List.get?_eq_getElem?, List.getElem?_map]
  cases g.board[y]? with
  | none => rfl
  | some r =>
    simp only [Option.map_some', Row.read, List.get?_eq_getElem?, List.getElem?_map,
      List.getElem?_range hx]

theorem checkForWin_transfer (g g' : Game) (hW : g'.WIDTH = g.WIDTH) (hH : g'.HEIGHT = g.HEIGHT)
    (hc : g'.currPlayer = g.currPlayer)
    (hr : ∀ y x, x < g.WIDTH → g'.board.read y x = g.board.read y (g.WIDTH - 1 - x))
    (h : g.checkForWin = true) : g'.checkForWin = true := by
  rw [checkForWin_iff_dir] at h ⊢
  obtain ⟨y, x, d, hy, hx, hd⟩ := h
  rw [win_line_nat] at hd
  cases d with
  | horizontal =>
    obtain ⟨h1, h2, h3⟩ := hd
    refine ⟨y, g.WIDTH - 4 - x, Dir.horizontal, by omega, by omega, ?_⟩
    rw [win_line_nat]
    refine ⟨by omega, by omega, fun i hi => ?_⟩
    rw [hr _ _ (by omega), hc]
    have e : g.WIDTH - 1 - (g.WIDTH - 4 - x + i) = x + (3 - i) := by omega
    rw [e]
    exact h3 (3 - i) (by omega)
  | vertical =>
    obtain ⟨h1, h2, h3⟩ := hd
    refine ⟨y, g.WIDTH - 1 - x, Dir.vertical, by omega, by omega, ?_⟩
    rw [win_line_nat]
    refine ⟨by omega, by omega, fun i hi => ?_⟩
    rw [hr _ _ (by omega), hc]
    have e : g.WIDTH - 1 - (g.WIDTH - 1 - x) = x := by omega
    rw [e]
    exact h3 i hi
  | downRight =>
    obtain ⟨h1, h2, h3⟩ := hd
    refine ⟨y, g.WIDTH - 1 - x, Dir.downLeft, by omega, by omega, ?_⟩
    rw [win_line_nat]
    refine ⟨by omega, by omega, by omega, fun i hi => ?_⟩
    rw [hr _ _ (by omega), hc]
    have e : g.WIDTH - 1 - (g.WIDTH - 1 - x - i) = x + i := by omega
    rw [e]
    exact h3 i hi
  | downLeft =>
    obtain ⟨h1, h2, h3, h4⟩ := hd
    refine ⟨y, g.WIDTH - 1 - x, Dir.downRight, by omega, by omega, ?_⟩
    rw [win_line_nat]
    refine ⟨by omega, by omega, fun i hi => ?_⟩
    rw [hr _ _ (by omega), hc]
    have e : g.WIDTH - 1 - (g.WIDTH - 1 - x + i) = x - i := by omega
    rw [e]
    exact h4 i hi

/-- C11: win detection is invariant under horizontal mirroring.  The mirrored
board has, at `(y, x)`, the cell `(y, WIDTH-1-x)` of the board, and for every
player `p`, `checkForWin` with current player `p` gives the same result on the
mirrored board as on the board. -/
theorem checkForWin_mirror (g : Game) (p : PlayerRef) (_hg : g.HasRows) :
    (∀ y x, x < g.WIDTH → g.mirror.board.read y x = g.board.read y (g.WIDTH - 1 - x)) ∧
    (g.mirror.withCurrent p).checkForWin = (g.withCurrent p).checkForWin := by
  refine ⟨fun y x hx => mirror_read g y x hx, ?_⟩
  rw [Bool.eq_iff_iff]
  constructor
  · intro h
    refine checkForWin_transfer (g.mirror.withCurrent p) (g.withCurrent p) rfl rfl rfl ?_ h
    intro y x hx
    have hx' : g.WIDTH - 1 - x < g.WIDTH := by
      have : x < g.WIDTH := hx
      omega
    have := mirror_read g y (g.WIDTH - 1 - x) hx'
    have e : g.WIDTH - 1 - (g.WIDTH - 1 - x) = x := by
      have : x < g.WIDTH := hx
      omega
    rw [e] at this
    exact this.symm
  · intro h
    exact checkForWin_transfer (g.withCurrent p) (g.mirror.withCurrent p) rfl rfl rfl
      (fun y x hx => mirror_read g y x hx) h

/-- Witness for C11: `wonGame` mirrored has player 1 on `(5, 3)` to `(5, 6)`. -/
theorem checkForWin_mirror_witness :
    wonGame.HasRows ∧ wonGame.mirror.board.read 5 6 = Value.player 1 ∧
    (wonGame.mirror.withCurrent 1).checkForWin = true ∧
    (wonGame.mirror.withCurrent 2).checkForWin = (wonGame.withCurrent 2).checkForWin :=
  ⟨by decide, by decide, by decide, (checkForWin_mirror wonGame 2 (by decide)).2⟩

/-- C17: a newly constructed game of width `W` and height `H` (7 and 6 by
default) has a board of exactly `H` rows of exactly `W` cells, all empty
(`undefined`), and player 1 as the current player; `checkForWin` is false on
it, and for `H >= 1` every column below `W` has its landing row at `H - 1`. -/
theorem new_game_spec (p1 p2 : PlayerRef) (W H : Nat) :
    Game.newDefault p1 p2 = Game.new p1 p2 7 6 ∧
    (Game.new p1 p2 W H).WIDTH = W ∧ (Game.new p1 p2 W H).HEIGHT = H ∧
    (Game.new p1 p2 W H).players = (p1, p2) ∧
    (Game.new p1 p2 W H).currPlayer = p1 ∧
    (Game.new p1 p2 W H).board.length = H ∧
    (∀ r ∈ (Game.new p1 p2 W H).board, r.length = W ∧ ∀ c ∈ r, c = some Value.undefined) ∧
    (∀ y x, ¬ (Game.new p1 p2 W H).occupied y x) ∧
    (Game.new p1 p2 W H).checkForWin = false ∧
    (∀ x, 1 ≤ W → 1 ≤ H → x < W → (Game.new p1 p2 W H).findSpotForCol x = some (H - 1)) := by
  refine ⟨rfl, rfl, rfl, rfl, rfl, by simp [Game.new, makeBoard], ?_, ?_, ?_, ?_⟩
  · intro r hr
    have hr' : r = List.replicate W (some Value.undefined) := by
      simp only [Game.new, makeBoard] at hr
      exact (List.mem_replicate.mp hr).2
    subst hr'
    exact ⟨by simp, fun c hc => (List.mem_replicate.mp hc).2⟩
  · intro y x h
    unfold Game.occupied at h
    rw [new_read] at h
    exact Bool.noConfusion h
  · rw [Bool.eq_false_iff]
    intro h
    obtain ⟨y, x, d, _, _, hd⟩ := (checkForWin_iff_dir _).mp h
    have := win_first_cell _ d y x hd
    rw [new_read] at this
    exact Value.noConfusion this
  · intro x _ hH _
    obtain ⟨n, hn⟩ : ∃ n, H = n + 1 := ⟨H - 1, by omega⟩
    subst hn
    show findSpotLoop (Game.new p1 p2 W (n + 1)).board x (n + 1) = some (n + 1 - 1)
    simp [findSpotLoop, new_read, Value.truthy]

/-- Witness for C17: column 4 of the default game. -/
theorem new_game_spec_witness :
    1 ≤ 7 ∧ 1 ≤ 6 ∧ 4 < 7 ∧ (Game.new 1 2 7 6).findSpotForCol 4 = some (6 - 1) :=
  ⟨by decide, by decide, by decide,
    (new_game_spec 1 2 7 6).2.2.2.2.2.2.2.2.2 4 (by decide) (by decide) (by decide)⟩

end ConnectFour

namespace ConnectFour

/-! ## Filling a column -/

theorem handleClick_read_other (g : Game) (x : Nat) (hg : g.HasRows) (y' x' : Nat)
    (hne : x' ≠ x) : (g.handleClick x).1.board.read y' x' = g.board.read y' x' := by
  cases hs : g.findSpotForCol x with
  | none => rw [handleClick_of_none g x hs]
  | some y =>
    have hy := (findSpotForCol_lt g x y hs).1
    rw [handleClick_board g x y hs, Board.cellRead_write _ _ _ _ _ _ (by rw [hg]; exact hy)]
    have : ¬ (y' = y ∧ x' = x) := fun h => hne h.2
    rw [if_neg this]

theorem handleClick_read_same (g : Game) (x y : Nat) (hg : g.HasRows)
    (hs : g.findSpotForCol x = some y) (y' x' : Nat) :
    (g.handleClick x).1.board.read y' x' =
      if y' = y ∧ x' = x then Value.player g.currPlayer else g.board.read y' x' := by
  have hy := (findSpotForCol_lt g x y hs).1
  rw [handleClick_board g x y hs, Board.cellRead_write _ _ _ _ _ _ (by rw [hg]; exact hy)]

theorem clicks_append (g : Game) (xs ys : List Nat) :
    g.clicks (xs ++ ys) = (g.clicks xs).clicks ys := by
  simp [Game.clicks, List.foldl_append]

theorem clicks_cons (g : Game) (x : Nat) (xs : List Nat) :
    g.clicks (x :: xs) = (g.handleClick x).1.clicks xs := rfl

/-- With the bottom `k` cells of column `c` occupied and the others empty, the
landing row of column `c` is `HEIGHT - 1 - k`, or there is none when `k >= HEIGHT`. -/
theorem findSpot_of_filled (g : Game) (c k : Nat)
    (hI : ∀ y, y < g.HEIGHT → (g.occupied y c ↔ g.HEIGHT - k ≤ y)) :
    (k < g.HEIGHT → g.findSpotForCol c = some (g.HEIGHT - 1 - k)) ∧
    (g.HEIGHT ≤ k → g.findSpotForCol c = none) := by
  constructor
  · intro hk
    apply (findSpotLoop_some g.board c g.HEIGHT _).mpr
    refine ⟨by omega, ?_, ?_⟩
    · have := hI (g.HEIGHT - 1 - k) (by omega)
      unfold Game.occupied at this
      cases h : (g.board.read (g.HEIGHT - 1 - k) c).truthy
      · rfl
      · have := this.mp h
        omega
    · intro y' h1 h2
      exact (hI y' h2).mpr (by omega)
  · intro hk
    apply (findSpotLoop_none g.board c g.HEIGHT).mpr
    intro y hy
    exact (hI y hy).mpr (by omega)

theorem handleClick_filled (g : Game) (c k x : Nat) (hg : g.HasRows)
    (hI : ∀ y, y < g.HEIGHT → (g.occupied y c ↔ g.HEIGHT - k ≤ y)) :
    ∀ y, y < (g.handleClick x).1.HEIGHT →
      ((g.handleClick x).1.occupied y c ↔
        (g.handleClick x).1.HEIGHT - (k + if x = c then 1 else 0) ≤ y) := by
  intro y hy
  rw [(handleClick_fields g x).2.1] at hy ⊢
  by_cases hxc : x = c
  · subst hxc
    rw [if_pos rfl]
    by_cases hk : k < g.HEIGHT
    · have hs := (findSpot_of_filled g x k hI).1 hk
      unfold Game.occupied
      rw [handleClick_read_same g x _ hg hs]
      by_cases hc : y = g.HEIGHT - 1 - k ∧ x = x
      · rw [if_pos hc]
        simp only [Value.truthy, true_iff]
        omega
      · rw [if_neg hc]
        have := hI y hy
        unfold Game.occupied at this
        rw [this]
        have : y ≠ g.HEIGHT - 1 - k := fun e => hc ⟨e, rfl⟩
        omega
    · have hs := (findSpot_of_filled g x k hI).2 (by omega)
      rw [handleClick_of_none g x hs]
      rw [hI y hy]
      omega
  · rw [if_neg hxc]
    unfold Game.occupied
    rw [handleClick_read_other g x hg y c (fun e => hxc e.symm)]
    exact hI y hy

theorem clicks_filled (c : Nat) (xs : List Nat) :
    ∀ (g : Game) (k : Nat), g.HasRows →
      (∀ y, y < g.HEIGHT → (g.occupied y c ↔ g.HEIGHT - k ≤ y)) →
      ∀ y, y < (g.clicks xs).HEIGHT →
        ((g.clicks xs).occupied y c ↔ (g.clicks xs).HEIGHT - (k + xs.count c) ≤ y) := by
  induction xs with
  | nil => intro g k _ hI; simpa using hI
  | cons x xs ih =>
    intro g k hg hI
    have h1 := handleClick_filled g c k x hg hI
    have h2 := ih (g.handleClick x).1 (k + if x = c then 1 else 0) (handleClick_hasRows g x hg) h1
    rw [clicks_cons]
    have e : k + (if x = c then 1 else 0) + List.count c xs = k + List.count c (x :: xs) := by
      rw [List.count_cons]
      by_cases hxc : x = c
      · simp [hxc]; omega
      · simp [hxc]
    rw [e] at h2
    exact h2

/-- C12: from a state in which column `c` is empty, after any sequence of
clicks the next click on `c` is the `(k+1)`-th on that column, `k` being the
number of earlier clicks on `c`, clicks on other columns interleaved at will.
For `k < HEIGHT` it lands in row `HEIGHT-1-k` (so `HEIGHT` drops land in rows
`HEIGHT-1`, ..., `0` in drop order), the cell holds the player who made the
drop and keeps holding it; for `k >= HEIGHT` the click is a no-op. -/
theorem column_fills_bottom_up (g : Game) (c : Nat) (hg : g.HasRows) (_hc : c < g.WIDTH)
    (hempty : ∀ y, y < g.HEIGHT → ¬ g.occupied y c) (xs : List Nat) :
    (xs.count c < g.HEIGHT →
      (g.clicks xs).findSpotForCol c = some (g.HEIGHT - 1 - xs.count c) ∧
      ((g.clicks xs).handleClick c).1.board.read (g.HEIGHT - 1 - xs.count c) c =
        Value.player (g.clicks xs).currPlayer ∧
      ∀ ys, (g.clicks (xs ++ c :: ys)).board.read (g.HEIGHT - 1 - xs.count c) c =
        Value.player (g.clicks xs).currPlayer) ∧
    (g.HEIGHT ≤ xs.count c → (g.clicks xs).handleClick c = (g.clicks xs, Outcome.ignored)) := by
  have h0 : ∀ y, y < g.HEIGHT → (g.occupied y c ↔ g.HEIGHT - 0 ≤ y) := by
    intro y hy
    constructor
    · intro h; exact absurd h (hempty y hy)
    · intro h; omega
  have hI := clicks_filled c xs g 0 hg h0
  have hH : (g.clicks xs).HEIGHT = g.HEIGHT := (clicks_fields xs g).2.1
  rw [Nat.zero_add] at hI
  have hrows := clicks_hasRows xs g hg
  obtain ⟨f1, f2⟩ := findSpot_of_filled (g.clicks xs) c (xs.count c) hI
  rw [hH] at f1 f2
  constructor
  · intro hk
    have hs := f1 hk
    have hplaced : ((g.clicks xs).handleClick c).1.board.read (g.HEIGHT - 1 - xs.count c) c =
        Value.player (g.clicks xs).currPlayer := by
      rw [handleClick_read_same _ c _ hrows hs]
      simp
    refine ⟨hs, hplaced, fun ys => ?_⟩
    rw [clicks_append, clicks_cons]
    exact clicks_keeps ys _ (handleClick_hasRows _ c hrows) _ _ _ hplaced
  · intro hk
    exact handleClick_of_none _ c (f2 hk)

/-- Witness for C12: column 2 of the default game, with clicks on columns 0
and 5 interleaved; the third drop into column 2 lands in row 3. -/
theorem column_fills_bottom_up_witness :
    (Game.newDefault 1 2).HasRows ∧ 2 < (Game.newDefault 1 2).WIDTH ∧
    (∀ y, y < (Game.newDefault 1 2).HEIGHT → ¬ (Game.newDefault 1 2).occupied y 2) ∧
    ((Game.newDefault 1 2).clicks [2, 0, 2, 5]).findSpotForCol 2 = some (6 - 1 - 2) :=
  ⟨by decide, by decide, by decide,
    ((column_fills_bottom_up (Game.newDefault 1 2) 2 (by decide) (by decide) (by decide)
      [2, 0, 2, 5]).1 (by decide)).1⟩

end ConnectFour

namespace ConnectFour

/-! ## Counting cells -/

theorem mem_cells (g : Game) (y x : Nat) : (y, x) ∈ g.cells ↔ (y < g.HEIGHT ∧ x < g.WIDTH) := by
  simp only [Game.cells, List.mem_flatMap, List.mem_map, List.mem_range, Prod.mk.injEq]
  constructor
  · rintro ⟨a, ha, b, hb, rfl, rfl⟩
    exact ⟨ha, hb⟩
  · rintro ⟨hy, hx⟩
    exact ⟨y, hy, x, hx, rfl, rfl⟩

theorem cells_nodup (g : Game) : g.cells.Nodup := by
  unfold Game.cells
  rw [List.nodup_flatMap]
  refine ⟨fun y _ => ?_, ?_⟩
  · exact (List.nodup_range _).map (fun a b h => (Prod.mk.inj h).2)
  · refine (List.nodup_range g.HEIGHT).imp ?_
    intro a b hab
    simp only [Function.onFun, List.disjoint_left, List.mem_map, List.mem_range]
    rintro ⟨y, x⟩ ⟨x1, _, h1⟩ ⟨x2, _, h2⟩
    exact hab ((Prod.mk.inj h1).1.trans (Prod.mk.inj h2).1.symm)

theorem cells_length (g : Game) : g.cells.length = g.HEIGHT * g.WIDTH := by
  have h : (List.length ∘ fun y : Nat => List.map (fun x => (y, x)) (List.range g.WIDTH)) =
      fun _ => g.WIDTH := by
    funext y
    simp
  simp only [Game.cells, List.length_flatMap, h, List.map_const', List.length_range,
    List.sum_replicate, smul_eq_mul]

/-- Counting with a predicate that became true at exactly one element of a
duplicate-free list. -/
theorem countP_one_more {α : Type} (P Q : α → Bool) (a : α) :
    ∀ l : List α, l.Nodup → a ∈ l → P a = false → Q a = true →
      (∀ b ∈ l, b ≠ a → Q b = P b) → l.countP Q = l.countP P + 1 := by
  intro l
  induction l with
  | nil => intro _ ha; exact absurd ha (List.not_mem_nil a)
  | cons b l ih =>
    intro hnd ha hP hQ hrest
    obtain ⟨hb, hnd'⟩ := List.nodup_cons.mp hnd
    rw [List.countP_cons, List.countP_cons]
    by_cases hab : b = a
    · subst hab
      have hsame : l.countP Q = l.countP P := by
        apply List.countP_congr
        intro c hc
        have hne : c ≠ b := fun e => hb (e ▸ hc)
        rw [hrest c (List.mem_cons_of_mem _ hc) hne]
      rw [hsame, hP, hQ]
      simp
    · have ha' : a ∈ l := by
        rcases List.mem_cons.mp ha with e | e
        · exact absurd e.symm hab
        · exact e
      have := ih hnd' ha' hP hQ (fun c hc hne => hrest c (List.mem_cons_of_mem _ hc) hne)
      rw [this, hrest b (List.mem_cons_self _ _) hab]
      omega

/-- A duplicate-free list of elements of `l` that satisfy `P` is no longer than
the count of `P` in `l`. -/
theorem length_le_countP {α : Type} (P : α → Bool) (l sub : List α) (hsub : sub.Nodup)
    (hmem : ∀ a ∈ sub, a ∈ l ∧ P a = true) : sub.length ≤ l.countP P := by
  rw [List.countP_eq_length_filter]
  apply List.Subperm.length_le
  apply List.subperm_of_subset hsub
  intro a ha
  exact List.mem_filter.mpr (hmem a ha)

end ConnectFour

namespace ConnectFour

/-! ## Counting moves -/

theorem place_read (g : Game) (y x : Nat) (hg : g.HasRows) (hy : y < g.HEIGHT) (y' x' : Nat) :
    (g.place y x).board.read y' x' =
      if y' = y ∧ x' = x then Value.player g.currPlayer else g.board.read y' x' := by
  show (g.board.write _ _ _).read _ _ = _
  rw [Board.cellRead_write _ _ _ _ _ _ (by rw [hg]; exact hy)]

theorem place_countOf (g : Game) (y x : Nat) (hg : g.HasRows) (hy : y < g.HEIGHT)
    (hx : x < g.WIDTH) (he : g.board.read y x = Value.undefined) (p : PlayerRef) :
    (g.place y x).countOf p = g.countOf p + if p = g.currPlayer then 1 else 0 := by
  unfold Game.countOf
  have hcells : (g.place y x).cells = g.cells := rfl
  rw [hcells]
  by_cases hp : p = g.currPlayer
  · rw [if_pos hp]
    apply countP_one_more _ _ (y, x) g.cells (cells_nodup g) ((mem_cells g y x).mpr ⟨hy, hx⟩)
    · simp [he]
    · simp [place_read g y x hg hy, hp]
    · rintro ⟨y', x'⟩ _ hne
      have : ¬ (y' = y ∧ x' = x) := fun h => hne (by rw [h.1, h.2])
      simp only [place_read g y x hg hy, if_neg this]
  · rw [if_neg hp, Nat.add_zero]
    apply List.countP_congr
    rintro ⟨y', x'⟩ _
    simp only [place_read g y x hg hy, decide_eq_true_eq]
    by_cases hc : y' = y ∧ x' = x
    · rw [if_pos hc, hc.1, hc.2, he]
      constructor
      · intro h; exact absurd (Value.player.inj h).symm hp
      · intro h; exact Value.noConfusion h
    · rw [if_neg hc]

theorem place_occupiedCount (g : Game) (y x : Nat) (hg : g.HasRows) (hy : y < g.HEIGHT)
    (hx : x < g.WIDTH) (he : g.board.read y x = Value.undefined) :
    (g.place y x).occupiedCount = g.occupiedCount + 1 := by
  unfold Game.occupiedCount
  have hcells : (g.place y x).cells = g.cells := rfl
  rw [hcells]
  apply countP_one_more _ _ (y, x) g.cells (cells_nodup g) ((mem_cells g y x).mpr ⟨hy, hx⟩)
  · simp [he, Value.truthy]
  · simp [place_read g y x hg hy, Value.truthy]
  · rintro ⟨y', x'⟩ _ hne
    have : ¬ (y' = y ∧ x' = x) := fun h => hne (by rw [h.1, h.2])
    simp only [place_read g y x hg hy, if_neg this]

/-- The game after a call that placed a piece: the board of `place`, the other
fields as before except possibly the current player. -/
theorem handleClick_placed (g : Game) (x y : Nat) (hx : x < g.WIDTH)
    (hs : g.findSpotForCol x = some y) :
    (g.handleClick x).2 ≠ Outcome.ignored ∧ (g.handleClick x).2 ≠ Outcome.threw ∧
    ((g.handleClick x).1 = g.place y x ∨ (g.handleClick x).1 = (g.place y x).switchPlayer) := by
  rw [handleClick_of_some g x y hx hs]
  split_ifs
  · exact ⟨fun h => Outcome.noConfusion h, fun h => Outcome.noConfusion h, Or.inl rfl⟩
  · exact ⟨fun h => Outcome.noConfusion h, fun h => Outcome.noConfusion h, Or.inl rfl⟩
  · exact ⟨fun h => Outcome.noConfusion h, fun h => Outcome.noConfusion h, Or.inr rfl⟩

theorem handleClick_counts (g : Game) (x y : Nat) (hg : g.HasRows) (hx : x < g.WIDTH)
    (hs : g.findSpotForCol x = some y) :
    (g.handleClick x).1.occupiedCount = g.occupiedCount + 1 ∧
    ∀ p, (g.handleClick x).1.countOf p = g.countOf p + if p = g.currPlayer then 1 else 0 := by
  obtain ⟨hy, he⟩ := findSpotForCol_lt g x y hs
  have h1 := place_occupiedCount g y x hg hy hx he
  have h2 := place_countOf g y x hg hy hx he
  rcases (handleClick_placed g x y hx hs).2.2 with h | h
  · rw [h]; exact ⟨h1, h2⟩
  · rw [h]; exact ⟨h1, h2⟩

theorem outcomes_cons (g : Game) (x : Nat) (xs : List Nat) :
    g.outcomes (x :: xs) = (g.handleClick x).2 :: (g.handleClick x).1.outcomes xs := rfl

theorem clicks_occupiedCount (xs : List Nat) :
    ∀ g : Game, g.HasRows → (∀ x ∈ xs, x < g.WIDTH) →
      (g.clicks xs).occupiedCount =
        g.occupiedCount + (g.outcomes xs).countP fun o => decide (o ≠ Outcome.ignored) := by
  induction xs with
  | nil => intro g _ _; rfl
  | cons x xs ih =>
    intro g hg hxs
    have hx : x < g.WIDTH := hxs x (List.mem_cons_self _ _)
    have hrest : ∀ x' ∈ xs, x' < (g.handleClick x).1.WIDTH := by
      intro x' hx'
      rw [(handleClick_fields g x).1]
      exact hxs x' (List.mem_cons_of_mem _ hx')
    rw [clicks_cons, outcomes_cons, List.countP_cons, ih _ (handleClick_hasRows g x hg) hrest]
    cases hs : g.findSpotForCol x with
    | none =>
      rw [handleClick_of_none g x hs]
      simp
    | some y =>
      rw [(handleClick_counts g x y hg hx hs).1]
      have := (handleClick_placed g x y hx hs).1
      simp only [ne_eq, this, not_false_eq_true, decide_True, if_true]
      omega

theorem new_occupiedCount (p1 p2 : PlayerRef) (W H : Nat) :
    (Game.new p1 p2 W H).occupiedCount = 0 := by
  unfold Game.occupiedCount
  rw [List.countP_eq_zero]
  intro c _
  rw [new_read]
  simp [Value.truthy]

/-- C20: a call of `handleClick` that places a piece increases the number of
occupied cells by exactly one; from the board of a new game, the piece-placing
calls of any sequence of in-range clicks are as many as the occupied cells at
the end, hence at most `WIDTH * HEIGHT`; and on a full board every in-range
click is a no-op that leaves the whole state unchanged. -/
theorem bounded_play :
    (∀ (g : Game) (x y : Nat), g.HasRows → x < g.WIDTH → g.findSpotForCol x = some y →
      (g.handleClick x).2 ≠ Outcome.ignored ∧
      (g.handleClick x).1.occupiedCount = g.occupiedCount + 1) ∧
    (∀ (p1 p2 : PlayerRef) (W H : Nat) (xs : List Nat), (∀ x ∈ xs, x < W) →
      ((Game.new p1 p2 W H).outcomes xs).countP (fun o => decide (o ≠ Outcome.ignored)) =
        ((Game.new p1 p2 W H).clicks xs).occupiedCount ∧
      ((Game.new p1 p2 W H).outcomes xs).countP (fun o => decide (o ≠ Outcome.ignored)) ≤
        W * H) ∧
    (∀ (g : Game) (x : Nat), g.HasRows → x < g.WIDTH →
      (∀ y, y < g.HEIGHT → ∀ x', x' < g.WIDTH → g.occupied y x') →
      g.handleClick x = (g, Outcome.ignored)) := by
  refine ⟨?_, ?_, ?_⟩
  · intro g x y hg hx hs
    exact ⟨(handleClick_placed g x y hx hs).1, (handleClick_counts g x y hg hx hs).1⟩
  · intro p1 p2 W H xs hxs
    have h := clicks_occupiedCount xs (Game.new p1 p2 W H) (new_dense p1 p2 W H).hasRows hxs
    rw [new_occupiedCount, Nat.zero_add] at h
    refine ⟨h.symm, ?_⟩
    rw [← h]
    have hle : ((Game.new p1 p2 W H).clicks xs).occupiedCount ≤
        ((Game.new p1 p2 W H).clicks xs).cells.length := List.countP_le_length _
    rw [cells_length, (clicks_fields xs _).1, (clicks_fields xs _).2.1] at hle
    have e : (Game.new p1 p2 W H).HEIGHT * (Game.new p1 p2 W H).WIDTH = W * H := Nat.mul_comm H W
    rw [e] at hle
    exact hle
  · intro g x _ hx hfull
    apply handleClick_of_none
    exact (findSpotLoop_none g.board x g.HEIGHT).mpr fun y hy => hfull y hy x hx

/-- Witness for C20: on a 2-wide, 1-high board the clicks 0, 0, 1, 1 place two
pieces, and on the full board a click on column 0 changes nothing. -/
theorem bounded_play_witness :
    ((Game.new 1 2 2 1).outcomes [0, 0, 1, 1]).countP (fun o => decide (o ≠ Outcome.ignored)) = 2 ∧
    ((Game.new 1 2 2 1).outcomes [0, 0, 1, 1]).countP (fun o => decide (o ≠ Outcome.ignored)) ≤
      2 * 1 ∧
    ((Game.new 1 2 2 1).handleClick 0).1.occupiedCount = (Game.new 1 2 2 1).occupiedCount + 1 ∧
    ((Game.new 1 2 2 1).clicks [0, 1]).handleClick 0 =
      ((Game.new 1 2 2 1).clicks [0, 1], Outcome.ignored) :=
  ⟨by decide,
    (bounded_play.2.1 1 2 2 1 [0, 0, 1, 1] (by decide)).2,
    (bounded_play.1 (Game.new 1 2 2 1) 0 0 (by decide) (by decide) (by decide)).2,
    bounded_play.2.2 ((Game.new 1 2 2 1).clicks [0, 1]) 0 (by decide) (by decide) (by decide)⟩

end ConnectFour

namespace ConnectFour

/-! ## Turn parity -/

theorem handleClick_continuing_state (g : Game) (x : Nat) (hx : x < g.WIDTH)
    (hc : (g.handleClick x).2 = Outcome.continuing) :
    ∃ y, g.findSpotForCol x = some y ∧ (g.place y x).checkForWin = false ∧
      (g.place y x).boardEvery = false ∧ (g.handleClick x).1 = (g.place y x).switchPlayer := by
  cases hs : g.findSpotForCol x with
  | none => rw [handleClick_of_none g x hs] at hc; exact Outcome.noConfusion hc
  | some y =>
    refine ⟨y, rfl, ?_⟩
    have h := handleClick_of_some g x y hx hs
    by_cases hw : (g.place y x).checkForWin = true
    · rw [if_pos hw] at h; rw [h] at hc; exact Outcome.noConfusion hc
    · rw [if_neg hw] at h
      by_cases hb : (g.place y x).boardEvery = true
      · rw [if_pos hb] at h; rw [h] at hc; exact Outcome.noConfusion hc
      · rw [if_neg hb] at h
        exact ⟨by simpa using hw, by simpa using hb, by rw [h]⟩

theorem handleClick_ignored_state (g : Game) (x : Nat) (hx : x < g.WIDTH)
    (hc : (g.handleClick x).2 = Outcome.ignored) : (g.handleClick x).1 = g := by
  cases hs : g.findSpotForCol x with
  | none => rw [handleClick_of_none g x hs]
  | some y => exact absurd hc (handleClick_placed g x y hx hs).1

/-- The turn and count invariant of play without a win or a tie. -/
theorem handleClick_parity (g : Game) (x : Nat) (hg : g.HasRows) (hx : x < g.WIDTH)
    (hne : g.players.1 ≠ g.players.2)
    (hc : (g.handleClick x).2 = Outcome.continuing ∨ (g.handleClick x).2 = Outcome.ignored)
    (hinv : (g.currPlayer = g.players.1 ∧ g.countOf g.players.1 = g.countOf g.players.2) ∨
      (g.currPlayer = g.players.2 ∧ g.countOf g.players.1 = g.countOf g.players.2 + 1)) :
    ((g.handleClick x).1.currPlayer = g.players.1 ∧
        (g.handleClick x).1.countOf g.players.1 = (g.handleClick x).1.countOf g.players.2) ∨
      ((g.handleClick x).1.currPlayer = g.players.2 ∧
        (g.handleClick x).1.countOf g.players.1 = (g.handleClick x).1.countOf g.players.2 + 1) := by
  rcases hc with hc | hc
  · obtain ⟨y, hs, _, _, _⟩ := handleClick_continuing_state g x hx hc
    have hcnt := (handleClick_counts g x y hg hx hs).2
    have hcur := (handleClick_continuing_player g x hc).1
    rcases hinv with ⟨h1, h2⟩ | ⟨h1, h2⟩
    · right
      refine ⟨by rw [hcur, if_pos h1], ?_⟩
      rw [hcnt, hcnt, h1, if_pos rfl, if_neg (fun e => hne e.symm), h2]
    · left
      have h1' : ¬ g.currPlayer = g.players.1 := by rw [h1]; exact fun e => hne e.symm
      refine ⟨by rw [hcur, if_neg h1'], ?_⟩
      rw [hcnt, hcnt, h1, if_neg hne, if_pos rfl, h2]
  · rw [handleClick_ignored_state g x hx hc]
    exact hinv

theorem handleClick_holders (g : Game) (x : Nat) (hg : g.HasRows)
    (hcur : g.currPlayer = g.players.1 ∨ g.currPlayer = g.players.2)
    (hold : ∀ y x', g.occupied y x' → (g.board.read y x' = Value.player g.players.1 ∨
      g.board.read y x' = Value.player g.players.2)) :
    ∀ y x', (g.handleClick x).1.occupied y x' →
      ((g.handleClick x).1.board.read y x' = Value.player g.players.1 ∨
        (g.handleClick x).1.board.read y x' = Value.player g.players.2) := by
  intro y x' hocc
  cases hs : g.findSpotForCol x with
  | none =>
    rw [handleClick_of_none g x hs] at hocc ⊢
    exact hold y x' hocc
  | some y0 =>
    unfold Game.occupied at hocc
    rw [handleClick_read_same g x y0 hg hs] at hocc ⊢
    by_cases hcell : y = y0 ∧ x' = x
    · rw [if_pos hcell]
      rcases hcur with e | e
      · left; rw [e]
      · right; rw [e]
    · rw [if_neg hcell] at hocc ⊢
      exact hold y x' hocc

theorem new_countOf (p1 p2 : PlayerRef) (W H : Nat) (p : PlayerRef) :
    (Game.new p1 p2 W H).countOf p = 0 := by
  unfold Game.countOf
  rw [List.countP_eq_zero]
  intro c _
  rw [new_read]
  simp

theorem clicks_parity (xs : List Nat) :
    ∀ g : Game, g.HasRows → (∀ x ∈ xs, x < g.WIDTH) → g.players.1 ≠ g.players.2 →
      (∀ o ∈ g.outcomes xs, o = Outcome.continuing ∨ o = Outcome.ignored) →
      ((g.currPlayer = g.players.1 ∧ g.countOf g.players.1 = g.countOf g.players.2) ∨
        (g.currPlayer = g.players.2 ∧ g.countOf g.players.1 = g.countOf g.players.2 + 1)) →
      (∀ y x', g.occupied y x' → (g.board.read y x' = Value.player g.players.1 ∨
        g.board.read y x' = Value.player g.players.2)) →
      (((g.clicks xs).currPlayer = g.players.1 ∧
          (g.clicks xs).countOf g.players.1 = (g.clicks xs).countOf g.players.2) ∨
        ((g.clicks xs).currPlayer = g.players.2 ∧
          (g.clicks xs).countOf g.players.1 = (g.clicks xs).countOf g.players.2 + 1)) ∧
      (∀ y x', (g.clicks xs).occupied y x' →
        ((g.clicks xs).board.read y x' = Value.player g.players.1 ∨
          (g.clicks xs).board.read y x' = Value.player g.players.2)) := by
  induction xs with
  | nil => intro g _ _ _ _ h1 h2; exact ⟨h1, h2⟩
  | cons x xs ih =>
    intro g hg hxs hne hout hinv hold
    have hx : x < g.WIDTH := hxs x (List.mem_cons_self _ _)
    obtain ⟨fW, _, fP⟩ := handleClick_fields g x
    have ho : (g.handleClick x).2 = Outcome.continuing ∨ (g.handleClick x).2 = Outcome.ignored :=
      hout _ (List.mem_cons_self _ _)
    have hcur : g.currPlayer = g.players.1 ∨ g.currPlayer = g.players.2 := by
      rcases hinv with h | h
      · exact Or.inl h.1
      · exact Or.inr h.1
    have h1 := handleClick_parity g x hg hx hne ho hinv
    have h2 := handleClick_holders g x hg hcur hold
    have := ih (g.handleClick x).1 (handleClick_hasRows g x hg)
      (fun x' hx' => by rw [fW]; exact hxs x' (List.mem_cons_of_mem _ hx'))
      (by rw [fP]; exact hne)
      (fun o ho' => hout o (List.mem_cons_of_mem _ ho'))
      (by rw [fP]; exact h1) (by rw [fP]; exact h2)
    rw [fP] at this
    exact this

/-- C19 (turn parity): for distinct players, in every state reached from the
board of a new game by in-range clicks whose outcomes were all continuing or
ignored, the number of grid cells held by player 1 equals the number held by
player 2 when player 1 is to move and exceeds it by exactly one when player 2
is to move (and one of the two is to move), and every occupied cell holds one
of the two players. -/
theorem turn_parity (p1 p2 : PlayerRef) (W H : Nat) (hne : p1 ≠ p2) (xs : List Nat)
    (hxs : ∀ x ∈ xs, x < W)
    (hout : ∀ o ∈ (Game.new p1 p2 W H).outcomes xs, o = Outcome.continuing ∨ o = Outcome.ignored) :
    (((Game.new p1 p2 W H).clicks xs).currPlayer = p1 ∨
      ((Game.new p1 p2 W H).clicks xs).currPlayer = p2) ∧
    (((Game.new p1 p2 W H).clicks xs).currPlayer = p1 →
      ((Game.new p1 p2 W H).clicks xs).countOf p1 = ((Game.new p1 p2 W H).clicks xs).countOf p2) ∧
    (((Game.new p1 p2 W H).clicks xs).currPlayer = p2 →
      ((Game.new p1 p2 W H).clicks xs).countOf p1 =
        ((Game.new p1 p2 W H).clicks xs).countOf p2 + 1) ∧
    (∀ y x, ((Game.new p1 p2 W H).clicks xs).occupied y x →
      (((Game.new p1 p2 W H).clicks xs).board.read y x = Value.player p1 ∨
        ((Game.new p1 p2 W H).clicks xs).board.read y x = Value.player p2)) := by
  have h := clicks_parity xs (Game.new p1 p2 W H) (new_dense p1 p2 W H).hasRows hxs hne hout
    (Or.inl ⟨rfl, by rw [new_countOf, new_countOf]⟩)
    (by
      intro y x hocc
      unfold Game.occupied at hocc
      rw [new_read] at hocc
      exact Bool.noConfusion hocc)
  obtain ⟨hpar, hold⟩ := h
  have e1 : (Game.new p1 p2 W H).players.1 = p1 := rfl
  have e2 : (Game.new p1 p2 W H).players.2 = p2 := rfl
  rw [e1, e2] at hpar
  refine ⟨?_, ?_, ?_, hold⟩
  · rcases hpar with h | h
    · exact Or.inl h.1
    · exact Or.inr h.1
  · intro hc
    rcases hpar with h | h
    · exact h.2
    · exact absurd (hc.symm.trans h.1) hne
  · intro hc
    rcases hpar with h | h
    · exact absurd (h.1.symm.trans hc) hne
    · exact h.2

/-- Witness for C19: after the clicks 3, 3, 4 on the default board player 2 is
to move and player 1 holds two cells, player 2 one. -/
theorem turn_parity_witness :
    ((Game.new 1 2 7 6).clicks [3, 3, 4]).currPlayer = 2 ∧
    ((Game.new 1 2 7 6).clicks [3, 3, 4]).countOf 2 = 1 ∧
    ((Game.new 1 2 7 6).clicks [3, 3, 4]).countOf 1 =
      ((Game.new 1 2 7 6).clicks [3, 3, 4]).countOf 2 + 1 :=
  ⟨by decide, by decide,
    (turn_parity 1 2 7 6 (by decide) [3, 3, 4] (by decide) (by decide)).2.2.1 (by decide)⟩

end ConnectFour

namespace ConnectFour

/-! ## No line for either player -/

/-- `checkForWin` only depends on the sizes and on which cells hold the current player. -/
theorem checkForWin_congr (g g' : Game) (hW : g'.WIDTH = g.WIDTH) (hH : g'.HEIGHT = g.HEIGHT)
    (hr : ∀ y x, (g'.board.read y x = Value.player g'.currPlayer ↔
      g.board.read y x = Value.player g.currPlayer)) :
    g'.checkForWin = g.checkForWin := by
  have hl : g'.legalAndMine = g.legalAndMine := by
    funext c
    rw [Bool.eq_iff_iff]
    simp only [Game.legalAndMine, Bool.and_eq_true, decide_eq_true_eq, hW, hH, hr]
  simp only [Game.checkForWin, Game.winAt, Game.win, hl, hW, hH]

/-- Placing a piece of the current player does not change the lines of another player. -/
theorem place_other_line (g : Game) (y x : Nat) (hg : g.HasRows) (hy : y < g.HEIGHT)
    (he : g.board.read y x = Value.undefined) (q : PlayerRef) (hq : q ≠ g.currPlayer) :
    ((g.place y x).withCurrent q).checkForWin = (g.withCurrent q).checkForWin := by
  refine checkForWin_congr (g.withCurrent q) ((g.place y x).withCurrent q) rfl rfl ?_
  intro y' x'
  show (g.place y x).board.read y' x' = Value.player q ↔ g.board.read y' x' = Value.player q
  rw [place_read g y x hg hy]
  by_cases hc : y' = y ∧ x' = x
  · rw [if_pos hc, hc.1, hc.2, he]
    constructor
    · intro h; exact absurd (Value.player.inj h).symm hq
    · intro h; exact Value.noConfusion h
  · rw [if_neg hc]

theorem handleClick_no_line (g : Game) (x : Nat) (hg : g.HasRows) (hx : x < g.WIDTH)
    (hc : (g.handleClick x).2 = Outcome.continuing ∨ (g.handleClick x).2 = Outcome.ignored)
    (q : PlayerRef) (hq : (g.withCurrent q).checkForWin = false) :
    ((g.handleClick x).1.withCurrent q).checkForWin = false := by
  rcases hc with hc | hc
  · obtain ⟨y, hs, hw, _, hst⟩ := handleClick_continuing_state g x hx hc
    obtain ⟨hy, he⟩ := findSpotForCol_lt g x y hs
    rw [hst]
    show ((g.place y x).withCurrent q).checkForWin = false
    by_cases hqc : q = g.currPlayer
    · subst hqc
      exact hw
    · rw [place_other_line g y x hg hy he q hqc]
      exact hq
  · rw [handleClick_ignored_state g x hx hc]
    exact hq

theorem clicks_no_line (xs : List Nat) :
    ∀ g : Game, g.HasRows → (∀ x ∈ xs, x < g.WIDTH) →
      (∀ o ∈ g.outcomes xs, o = Outcome.continuing ∨ o = Outcome.ignored) →
      ∀ q, (g.withCurrent q).checkForWin = false →
        ((g.clicks xs).withCurrent q).checkForWin = false := by
  induction xs with
  | nil => intro g _ _ _ q h; exact h
  | cons x xs ih =>
    intro g hg hxs hout q hq
    have hx : x < g.WIDTH := hxs x (List.mem_cons_self _ _)
    have ho := hout _ (List.mem_cons_self _ _)
    exact ih (g.handleClick x).1 (handleClick_hasRows g x hg)
      (fun x' hx' => by rw [(handleClick_fields g x).1]; exact hxs x' (List.mem_cons_of_mem _ hx'))
      (fun o ho' => hout o (List.mem_cons_of_mem _ ho')) q
      (handleClick_no_line g x hg hx ho q hq)

theorem new_no_line (p1 p2 : PlayerRef) (W H : Nat) (q : PlayerRef) :
    ((Game.new p1 p2 W H).withCurrent q).checkForWin = false := by
  rw [Bool.eq_false_iff]
  intro h
  obtain ⟨y, x, d, _, _, hd⟩ := (checkForWin_iff_dir _).mp h
  have := win_first_cell _ d y x hd
  have e : ((Game.new p1 p2 W H).withCurrent q).board.read y x = Value.undefined :=
    new_read p1 p2 W H y x
  rw [e] at this
  exact Value.noConfusion this

/-- C18 (no line): for distinct players, in every state reached from the board
of a new game by in-range clicks whose outcomes were all continuing or ignored,
neither player has four pieces in a line: `checkForWin` is false with player 1
as the current player and with player 2 as the current player. -/
theorem no_line_invariant (p1 p2 : PlayerRef) (W H : Nat) (_hne : p1 ≠ p2) (xs : List Nat)
    (hxs : ∀ x ∈ xs, x < W)
    (hout : ∀ o ∈ (Game.new p1 p2 W H).outcomes xs, o = Outcome.continuing ∨ o = Outcome.ignored) :
    (((Game.new p1 p2 W H).clicks xs).withCurrent p1).checkForWin = false ∧
    (((Game.new p1 p2 W H).clicks xs).withCurrent p2).checkForWin = false :=
  ⟨clicks_no_line xs _ (new_dense p1 p2 W H).hasRows hxs hout p1 (new_no_line p1 p2 W H p1),
    clicks_no_line xs _ (new_dense p1 p2 W H).hasRows hxs hout p2 (new_no_line p1 p2 W H p2)⟩

/-- Witness for C18: the default board after the clicks 0, 6, 1, 6, 2, 6. -/
theorem no_line_invariant_witness :
    (∀ o ∈ (Game.new 1 2 7 6).outcomes [0, 6, 1, 6, 2, 6],
      o = Outcome.continuing ∨ o = Outcome.ignored) ∧
    (((Game.new 1 2 7 6).clicks [0, 6, 1, 6, 2, 6]).withCurrent 1).checkForWin = false ∧
    (((Game.new 1 2 7 6).clicks [0, 6, 1, 6, 2, 6]).withCurrent 2).checkForWin = false :=
  ⟨by decide,
    (no_line_invariant 1 2 7 6 (by decide) [0, 6, 1, 6, 2, 6] (by decide) (by decide)).1,
    (no_line_invariant 1 2 7 6 (by decide) [0, 6, 1, 6, 2, 6] (by decide) (by decide)).2⟩

end ConnectFour

namespace ConnectFour

/-! ## Renaming the players -/

theorem relabel_truthy (f : PlayerRef → PlayerRef) (v : Value) :
    (v.relabel f).truthy = v.truthy := by
  cases v <;> rfl

theorem relabel_rowRead (f : PlayerRef → PlayerRef) (r : Row) (x : Nat) :
    Row.read (r.map fun c => c.map (Value.relabel f)) x = (r.read x).relabel f := by
  simp only [Row.read, List.get?_eq_getElem?, List.getElem?_map]
  cases r[x]? with
  | none => rfl
  | some c => cases c <;> rfl

theorem relabel_read (f : PlayerRef → PlayerRef) (b : Board) (y x : Nat) :
    (relabelBoard f b).read y x = (b.read y x).relabel f := by
  simp only [relabelBoard, Board.read, List.get?_eq_getElem?, List.getElem?_map]
  cases b[y]? with
  | none => rfl
  | some r => exact relabel_rowRead f r x

theorem relabel_rowWrite (f : PlayerRef → PlayerRef) (r : Row) (x : Nat) (v : Value) :
    Row.write (r.map fun c => c.map (Value.relabel f)) x (v.relabel f) =
      (r.write x v).map fun c => c.map (Value.relabel f) := by
  unfold Row.write
  rw [List.length_map]
  split_ifs
  · rw [List.map_set]; rfl
  · simp

theorem map_modify {α : Type} (f h : α → α) (k : α → α) (hk : ∀ a, k (f a) = h (k a)) :
    ∀ (n : Nat) (l : List α), (l.modify f n).map k = (l.map k).modify h n := by
  intro n
  induction n with
  | zero =>
    intro l
    cases l with
    | nil => rfl
    | cons a l => simp [hk]
  | succ n ih =>
    intro l
    cases l with
    | nil => rfl
    | cons a l => simp [ih]

theorem relabel_write (f : PlayerRef → PlayerRef) (b : Board) (y x : Nat) (v : Value) :
    (relabelBoard f b).write y x (v.relabel f) = relabelBoard f (b.write y x v) := by
  unfold Board.write relabelBoard
  rw [map_modify (fun r => Row.write r x v) (fun r => Row.write r x (v.relabel f))]
  intro r
  exact (relabel_rowWrite f r x v).symm

theorem relabel_findSpotLoop (f : PlayerRef → PlayerRef) (b : Board) (x : Nat) :
    ∀ n, findSpotLoop (relabelBoard f b) x n = findSpotLoop b x n := by
  intro n
  induction n with
  | zero => rfl
  | succ n ih => simp only [findSpotLoop, relabel_read, relabel_truthy, ih]

theorem relabel_checkForWin (f : PlayerRef → PlayerRef) (hf : Function.Injective f) (g : Game) :
    (g.relabel f).checkForWin = g.checkForWin := by
  refine checkForWin_congr g (g.relabel f) rfl rfl ?_
  intro y x
  show (relabelBoard f g.board).read y x = Value.player (f g.currPlayer) ↔ _
  rw [relabel_read]
  cases g.board.read y x with
  | undefined => simp [Value.relabel]
  | player p =>
    simp only [Value.relabel, Value.player.injEq]
    exact ⟨fun h => hf h, fun h => by rw [h]⟩

theorem relabel_boardEvery (f : PlayerRef → PlayerRef) (g : Game) :
    (g.relabel f).boardEvery = g.boardEvery := by
  simp only [Game.boardEvery, Game.relabel, relabelBoard, List.all_map]
  congr 1
  funext r
  simp only [Function.comp, Row.every, List.all_map]
  congr 1
  funext c
  cases c with
  | none => rfl
  | some v => exact relabel_truthy f v

theorem relabel_place (f : PlayerRef → PlayerRef) (g : Game) (y x : Nat) :
    (g.relabel f).place y x = (g.place y x).relabel f := by
  simp only [Game.place, Game.relabel]
  congr 1
  exact relabel_write f g.board y x (Value.player g.currPlayer)

theorem relabel_switchPlayer (f : PlayerRef → PlayerRef) (hf : Function.Injective f) (g : Game) :
    (g.relabel f).switchPlayer = g.switchPlayer.relabel f := by
  simp only [Game.switchPlayer, Game.relabel]
  congr 1
  by_cases h : g.currPlayer = g.players.1
  · rw [if_pos h, if_pos (by rw [h])]
  · rw [if_neg h, if_neg (fun e => h (hf e))]

theorem relabel_handleClick (f : PlayerRef → PlayerRef) (hf : Function.Injective f) (g : Game)
    (x : Nat) :
    (g.relabel f).handleClick x =
      ((g.handleClick x).1.relabel f, (g.handleClick x).2.relabel f) := by
  unfold Game.handleClick
  have hs : (g.relabel f).findSpotForCol x = g.findSpotForCol x :=
    relabel_findSpotLoop f g.board x g.HEIGHT
  rw [hs]
  cases g.findSpotForCol x with
  | none => rfl
  | some y =>
    have ht : (g.relabel f).hasTableCell y x = g.hasTableCell y x := rfl
    simp only [ht, relabel_place, relabel_checkForWin f hf, relabel_boardEvery,
      relabel_switchPlayer f hf]
    split_ifs <;> rfl

theorem relabel_clicks (f : PlayerRef → PlayerRef) (hf : Function.Injective f) (xs : List Nat) :
    ∀ g : Game, (g.relabel f).clicks xs = (g.clicks xs).relabel f ∧
      (g.relabel f).outcomes xs = (g.outcomes xs).map (Outcome.relabel f) := by
  induction xs with
  | nil => intro g; exact ⟨rfl, rfl⟩
  | cons x xs ih =>
    intro g
    rw [clicks_cons, clicks_cons, outcomes_cons, outcomes_cons, relabel_handleClick f hf g x]
    obtain ⟨h1, h2⟩ := ih (g.handleClick x).1
    exact ⟨h1, by rw [h2]; rfl⟩

theorem relabel_new (f : PlayerRef → PlayerRef) (p1 p2 : PlayerRef) (W H : Nat) :
    (Game.new p1 p2 W H).relabel f = Game.new (f p1) (f p2) W H := by
  simp [Game.new, Game.relabel, relabelBoard, makeBoard, Value.relabel]

/-- Two distinct player objects are the images of the objects 1 and 2 under an
injective renaming. -/
theorem exists_relabel (A B : PlayerRef) (hne : A ≠ B) :
    ∃ f : PlayerRef → PlayerRef, Function.Injective f ∧ f 1 = A ∧ f 2 = B := by
  refine ⟨fun n => Equiv.swap (Equiv.swap 1 A 2) B (Equiv.swap 1 A n), ?_, ?_, ?_⟩
  · exact (Equiv.swap (Equiv.swap 1 A 2) B).injective.comp (Equiv.swap 1 A).injective
  · show Equiv.swap (Equiv.swap 1 A 2) B (Equiv.swap 1 A 1) = A
    rw [Equiv.swap_apply_left]
    apply Equiv.swap_apply_of_ne_of_ne
    · intro h
      have : (Equiv.swap 1 A) 1 = (Equiv.swap 1 A) 2 := by rw [Equiv.swap_apply_left]; exact h
      exact absurd ((Equiv.swap 1 A).injective this) (by decide)
    · exact hne
  · show Equiv.swap (Equiv.swap 1 A 2) B (Equiv.swap 1 A 2) = B
    exact Equiv.swap_apply_left _ _

end ConnectFour

namespace ConnectFour

/-! ## Scenarios: horizontal win and tie -/

/-- C13 (horizontal win): on a new 7-wide, 6-high game with distinct players
`A` (first) and `B`, the clicks 0, 6, 1, 6, 2, 6, 3 give a continuing outcome
for each of the first six and a win for `A` on the seventh, and then `A` holds
row 5, columns 0 to 3. -/
theorem horizontal_win_scenario (A B : PlayerRef) (hne : A ≠ B) :
    (Game.newDefault A B).outcomes [0, 6, 1, 6, 2, 6, 3] =
      [Outcome.continuing, Outcome.continuing, Outcome.continuing, Outcome.continuing,
        Outcome.continuing, Outcome.continuing, Outcome.won A] ∧
    ∀ x, x < 4 → ((Game.newDefault A B).clicks [0, 6, 1, 6, 2, 6, 3]).board.read 5 x =
      Value.player A := by
  obtain ⟨f, hf, rfl, rfl⟩ := exists_relabel A B hne
  have hnew : Game.newDefault (f 1) (f 2) = (Game.newDefault 1 2).relabel f :=
    (relabel_new f 1 2 7 6).symm
  obtain ⟨hc, ho⟩ := relabel_clicks f hf [0, 6, 1, 6, 2, 6, 3] (Game.newDefault 1 2)
  rw [hnew, hc, ho]
  have h1 : (Game.newDefault 1 2).outcomes [0, 6, 1, 6, 2, 6, 3] =
      [Outcome.continuing, Outcome.continuing, Outcome.continuing, Outcome.continuing,
        Outcome.continuing, Outcome.continuing, Outcome.won 1] := by decide
  have h2 : ∀ x, x < 4 → ((Game.newDefault 1 2).clicks [0, 6, 1, 6, 2, 6, 3]).board.read 5 x =
      Value.player 1 := by decide
  refine ⟨by rw [h1]; rfl, fun x hx => ?_⟩
  show (relabelBoard f _).read 5 x = _
  rw [relabel_read, h2 x hx]
  rfl

/-- Witness for C13: the players 10 and 20. -/
theorem horizontal_win_scenario_witness :
    (10 : PlayerRef) ≠ 20 ∧
    (Game.newDefault 10 20).outcomes [0, 6, 1, 6, 2, 6, 3] =
      [Outcome.continuing, Outcome.continuing, Outcome.continuing, Outcome.continuing,
        Outcome.continuing, Outcome.continuing, Outcome.won 10] :=
  ⟨by decide, (horizontal_win_scenario 10 20 (by decide)).1⟩

/-- C15 (tie): on a new 7-wide, 6-high game with distinct players there is a
sequence of 42 in-range clicks of which the first 41 each have a continuing
outcome (a piece is placed, no line of four is detected, the board is not full)
and the 42nd fills the board and yields a tie. -/
theorem tie_scenario (A B : PlayerRef) (hne : A ≠ B) :
    ∃ xs : List Nat, xs.length = 42 ∧ (∀ x ∈ xs, x < 7) ∧
      (Game.newDefault A B).outcomes xs =
        List.replicate 41 Outcome.continuing ++ [Outcome.tie] ∧
      (∀ y, y < 6 → ∀ x, x < 7 → ((Game.newDefault A B).clicks xs).occupied y x) ∧
      ∃ y x, y < 6 ∧ x < 7 ∧ ¬ ((Game.newDefault A B).clicks (xs.take 41)).occupied y x := by
  obtain ⟨f, hf, rfl, rfl⟩ := exists_relabel A B hne
  have hnew : Game.newDefault (f 1) (f 2) = (Game.newDefault 1 2).relabel f :=
    (relabel_new f 1 2 7 6).symm
  refine ⟨fortyOneClicks ++ [6], by decide, by decide, ?_, ?_, 0, 6, by decide, by decide, ?_⟩
  · rw [hnew, (relabel_clicks f hf _ (Game.newDefault 1 2)).2]
    have h1 : (Game.newDefault 1 2).outcomes (fortyOneClicks ++ [6]) =
        List.replicate 41 Outcome.continuing ++ [Outcome.tie] := by decide
    rw [h1]
    rfl
  · intro y hy x hx
    rw [hnew, (relabel_clicks f hf _ (Game.newDefault 1 2)).1]
    show ((relabelBoard f _).read y x).truthy = true
    rw [relabel_read, relabel_truthy]
    have h2 : ∀ y, y < 6 → ∀ x, x < 7 →
        ((Game.newDefault 1 2).clicks (fortyOneClicks ++ [6])).occupied y x := by decide
    exact h2 y hy x hx
  · rw [hnew, (relabel_clicks f hf _ (Game.newDefault 1 2)).1]
    show ¬ ((relabelBoard f _).read 0 6).truthy = true
    rw [relabel_read, relabel_truthy]
    have h3 : ¬ ((Game.newDefault 1 2).clicks ((fortyOneClicks ++ [6]).take 41)).occupied 0 6 := by
      decide
    exact h3

/-- Witness for C15: the players 10 and 20. -/
theorem tie_scenario_witness :
    (10 : PlayerRef) ≠ 20 ∧
    ∃ xs : List Nat, xs.length = 42 ∧ (∀ x ∈ xs, x < 7) ∧
      (Game.newDefault 10 20).outcomes xs =
        List.replicate 41 Outcome.continuing ++ [Outcome.tie] :=
  ⟨by decide,
    (tie_scenario 10 20 (by decide)).imp fun _ h => ⟨h.1, h.2.1, h.2.2.1⟩⟩

end ConnectFour

namespace ConnectFour

/-! ## Few pieces and the vertical win -/

theorem full_occupiedCount (g : Game) (hg : g.Dense) (hb : g.boardEvery = true) :
    g.occupiedCount = g.HEIGHT * g.WIDTH := by
  rw [← cells_length]
  unfold Game.occupiedCount
  rw [List.countP_eq_length]
  rintro ⟨y, x⟩ hmem
  obtain ⟨hy, hx⟩ := (mem_cells g y x).mp hmem
  exact (boardEvery_iff g hg).mp hb y x hy hx

theorem column_full_count (g : Game) (x : Nat) (hx : x < g.WIDTH)
    (hfull : ∀ y, y < g.HEIGHT → g.occupied y x) : g.HEIGHT ≤ g.occupiedCount := by
  have h := length_le_countP (fun c : Nat × Nat => (g.board.read c.1 c.2).truthy) g.cells
    ((List.range g.HEIGHT).map fun y => (y, x))
    ((List.nodup_range _).map (fun a b h => (Prod.mk.inj h).1))
    (by
      intro a ha
      obtain ⟨y, hy, rfl⟩ := List.mem_map.mp ha
      have hy' := List.mem_range.mp hy
      exact ⟨(mem_cells g y x).mpr ⟨hy', hx⟩, hfull y hy'⟩)
  simpa [Game.occupiedCount] using h

theorem four_cells_count (g : Game) (cell : Nat → Nat × Nat)
    (hinj : Function.Injective cell)
    (hcell : ∀ i, i < 4 → (cell i).1 < g.HEIGHT ∧ (cell i).2 < g.WIDTH ∧
      g.board.read (cell i).1 (cell i).2 = Value.player g.currPlayer) :
    4 ≤ g.countOf g.currPlayer := by
  have h := length_le_countP
    (fun c : Nat × Nat => decide (g.board.read c.1 c.2 = Value.player g.currPlayer)) g.cells
    ((List.range 4).map cell) ((List.nodup_range _).map hinj)
    (by
      intro a ha
      obtain ⟨i, hi, rfl⟩ := List.mem_map.mp ha
      obtain ⟨h1, h2, h3⟩ := hcell i (List.mem_range.mp hi)
      exact ⟨(mem_cells g _ _).mpr ⟨h1, h2⟩, by simpa using h3⟩)
  simpa [Game.countOf] using h

/-- A line of four needs four cells of the current player. -/
theorem win_count (g : Game) (h : g.checkForWin = true) : 4 ≤ g.countOf g.currPlayer := by
  obtain ⟨y, x, d, hy, hx, hd⟩ := (checkForWin_iff_dir g).mp h
  rw [win_line_nat] at hd
  cases d with
  | horizontal =>
    obtain ⟨h1, h2, h3⟩ := hd
    exact four_cells_count g (fun i => (y, x + i))
      (fun a b e => by have := (Prod.mk.inj e).2; omega)
      (fun i hi => ⟨h2, by show x + i < g.WIDTH; omega, h3 i hi⟩)
  | vertical =>
    obtain ⟨h1, h2, h3⟩ := hd
    exact four_cells_count g (fun i => (y + i, x))
      (fun a b e => by have := (Prod.mk.inj e).1; omega)
      (fun i hi => ⟨by show y + i < g.HEIGHT; omega, h2, h3 i hi⟩)
  | downRight =>
    obtain ⟨h1, h2, h3⟩ := hd
    exact four_cells_count g (fun i => (y + i, x + i))
      (fun a b e => by have := (Prod.mk.inj e).1; omega)
      (fun i hi => ⟨by show y + i < g.HEIGHT; omega, by show x + i < g.WIDTH; omega, h3 i hi⟩)
  | downLeft =>
    obtain ⟨h1, h2, h3, h4⟩ := hd
    exact four_cells_count g (fun i => (y + i, x - i))
      (fun a b e => by have := (Prod.mk.inj e).1; omega)
      (fun i hi => ⟨by show y + i < g.HEIGHT; omega, by show x - i < g.WIDTH; omega, h4 i hi⟩)

/-- With few pieces on the board a click places a piece and play continues. -/
theorem early_step (g : Game) (x : Nat) (hg : g.Dense) (hx : x < g.WIDTH)
    (h1 : g.occupiedCount < g.HEIGHT) (h2 : g.occupiedCount + 1 < g.HEIGHT * g.WIDTH)
    (h3 : g.countOf g.currPlayer < 3) :
    ∃ y, g.findSpotForCol x = some y ∧
      g.handleClick x = ((g.place y x).switchPlayer, Outcome.continuing) := by
  cases hs : g.findSpotForCol x with
  | none =>
    have := column_full_count g x hx ((findSpotLoop_none g.board x g.HEIGHT).mp hs)
    omega
  | some y =>
    refine ⟨y, rfl, ?_⟩
    obtain ⟨hy, he⟩ := findSpotForCol_lt g x y hs
    rw [handleClick_of_some g x y hx hs]
    have hw : ¬ (g.place y x).checkForWin = true := by
      intro hw
      have h4 := win_count _ hw
      have h5 := place_countOf g y x hg.hasRows hy hx he g.currPlayer
      rw [if_pos rfl] at h5
      have e : (g.place y x).currPlayer = g.currPlayer := rfl
      rw [e, h5] at h4
      omega
    have hb : ¬ (g.place y x).boardEvery = true := by
      intro hb
      have h4 := full_occupiedCount _ (place_dense g y x hg hx) hb
      rw [place_occupiedCount g y x hg.hasRows hy hx he] at h4
      have e1 : (g.place y x).HEIGHT = g.HEIGHT := rfl
      have e2 : (g.place y x).WIDTH = g.WIDTH := rfl
      rw [e1, e2] at h4
      omega
    rw [if_neg hw, if_neg hb]

theorem early_moves (A B : PlayerRef) (hne : A ≠ B) (xs : List Nat) :
    ∀ (g : Game) (n : Nat), g.Dense → g.players = (A, B) → g.occupiedCount = n →
      g.countOf A = (n + 1) / 2 → g.countOf B = n / 2 →
      g.currPlayer = (if n % 2 = 0 then A else B) →
      n + xs.length ≤ 6 → n + xs.length ≤ g.HEIGHT → n + xs.length < g.HEIGHT * g.WIDTH →
      (∀ x ∈ xs, x < g.WIDTH) →
      g.outcomes xs = List.replicate xs.length Outcome.continuing ∧
      (g.clicks xs).currPlayer = (if (n + xs.length) % 2 = 0 then A else B) := by
  induction xs with
  | nil => intro g n _ _ _ _ _ hcur _ _ _ _; exact ⟨rfl, hcur⟩
  | cons x xs ih =>
    intro g n hg hpl hocc hA hB hcur h6 hH hWH hxs
    have hx : x < g.WIDTH := hxs x (List.mem_cons_self _ _)
    have hlen : (x :: xs).length = xs.length + 1 := rfl
    rw [hlen] at h6 hH hWH
    have hfew : g.countOf g.currPlayer < 3 := by
      rw [hcur]
      by_cases hn : n % 2 = 0
      · rw [if_pos hn, hA]; omega
      · rw [if_neg hn, hB]; omega
    obtain ⟨y, hs, hstep⟩ := early_step g x hg hx (by omega) (by omega) hfew
    have hcont : (g.handleClick x).2 = Outcome.continuing := by rw [hstep]
    obtain ⟨hocc', hcnt⟩ := handleClick_counts g x y hg.hasRows hx hs
    obtain ⟨hcur', hpl'⟩ := handleClick_continuing_player g x hcont
    obtain ⟨fW, fH, _⟩ := handleClick_fields g x
    have hp1 : g.players.1 = A := by rw [hpl]
    have hp2 : g.players.2 = B := by rw [hpl]
    have := ih (g.handleClick x).1 (n + 1) (handleClick_dense g x hg hx) (hpl'.trans hpl)
      (by rw [hocc', hocc])
      (by
        rw [hcnt A, hA, hcur]
        by_cases hn : n % 2 = 0
        · rw [if_pos hn, if_pos rfl]; omega
        · rw [if_neg hn, if_neg hne]; omega)
      (by
        rw [hcnt B, hB, hcur]
        by_cases hn : n % 2 = 0
        · rw [if_pos hn, if_neg (fun e => hne e.symm)]; omega
        · rw [if_neg hn, if_pos rfl]; omega)
      (by
        rw [hcur', hp1, hp2, hcur]
        by_cases hn : n % 2 = 0
        · have hn' : ¬ (n + 1) % 2 = 0 := by omega
          rw [if_pos hn, if_pos rfl, if_neg hn']
        · have hn' : (n + 1) % 2 = 0 := by omega
          rw [if_neg hn, if_neg (fun e => hne e.symm), if_pos hn'])
      (by omega) (by rw [fH]; omega) (by rw [fH, fW]; omega)
      (fun x' hx' => by rw [fW]; exact hxs x' (List.mem_cons_of_mem _ hx'))
    obtain ⟨i1, i2⟩ := this
    refine ⟨?_, ?_⟩
    · rw [outcomes_cons, hcont, i1]
      rfl
    · rw [clicks_cons, i2, hlen]
      have e : n + 1 + xs.length = n + (xs.length + 1) := by omega
      rw [e]

/-- The drop that follows `xs` into a column that was empty at the start lands
in the row given by the number of earlier drops into it, and stays there. -/
theorem drop_lands (g : Game) (c : Nat) (hg : g.HasRows)
    (hempty : ∀ y, y < g.HEIGHT → ¬ g.occupied y c) (xs : List Nat)
    (hk : xs.count c < g.HEIGHT) :
    (g.clicks xs).findSpotForCol c = some (g.HEIGHT - 1 - xs.count c) ∧
    ∀ ys, (g.clicks (xs ++ c :: ys)).board.read (g.HEIGHT - 1 - xs.count c) c =
      Value.player (g.clicks xs).currPlayer := by
  have h0 : ∀ y, y < g.HEIGHT → (g.occupied y c ↔ g.HEIGHT - 0 ≤ y) := by
    intro y hy
    constructor
    · intro h; exact absurd h (hempty y hy)
    · intro h; omega
  have hI := clicks_filled c xs g 0 hg h0
  have hH : (g.clicks xs).HEIGHT = g.HEIGHT := (clicks_fields xs g).2.1
  rw [Nat.zero_add] at hI
  have hrows := clicks_hasRows xs g hg
  have hs := (findSpot_of_filled (g.clicks xs) c (xs.count c) hI).1 (by rw [hH]; exact hk)
  rw [hH] at hs
  refine ⟨hs, fun ys => ?_⟩
  rw [clicks_append, clicks_cons]
  apply clicks_keeps ys _ (handleClick_hasRows _ c hrows)
  rw [handleClick_read_same _ c _ hrows hs]
  simp

theorem outcomes_append (xs ys : List Nat) :
    ∀ g : Game, g.outcomes (xs ++ ys) = g.outcomes xs ++ (g.clicks xs).outcomes ys := by
  induction xs with
  | nil => intro g; rfl
  | cons x xs ih =>
    intro g
    show (g.handleClick x).2 :: (g.handleClick x).1.outcomes (xs ++ ys) = _
    rw [ih]
    rfl

/-- C14 (vertical win): on a new 7-wide, 6-high game with distinct players `A`
(first) and `B`, for every column `c` and all in-range columns `b1`, `b2`, `b3`
different from `c`, the clicks `c, b1, c, b2, c, b3, c` give a continuing
outcome for each of the first six and a win for `A` on the seventh, and `A`
holds rows 2, 3, 4, 5 of column `c`. -/
theorem vertical_win_scenario (A B : PlayerRef) (hne : A ≠ B) (c b1 b2 b3 : Nat)
    (hc : c < 7) (h1 : b1 < 7) (h2 : b2 < 7) (h3 : b3 < 7)
    (n1 : b1 ≠ c) (n2 : b2 ≠ c) (n3 : b3 ≠ c) :
    (Game.newDefault A B).outcomes [c, b1, c, b2, c, b3, c] =
      [Outcome.continuing, Outcome.continuing, Outcome.continuing, Outcome.continuing,
        Outcome.continuing, Outcome.continuing, Outcome.won A] ∧
    ∀ y, 2 ≤ y → y < 6 →
      ((Game.newDefault A B).clicks [c, b1, c, b2, c, b3, c]).board.read y c = Value.player A := by
  have hd : (Game.newDefault A B).Dense := new_dense A B 7 6
  have hr : (Game.newDefault A B).HasRows := hd.hasRows
  have hempty : ∀ y, y < (Game.newDefault A B).HEIGHT → ¬ (Game.newDefault A B).occupied y c := by
    intro y _ h
    unfold Game.occupied at h
    rw [show Game.newDefault A B = Game.new A B 7 6 from rfl, new_read] at h
    exact Bool.noConfusion h
  have early : ∀ xs : List Nat, xs.length ≤ 6 → (∀ x ∈ xs, x < 7) →
      (Game.newDefault A B).outcomes xs = List.replicate xs.length Outcome.continuing ∧
      ((Game.newDefault A B).clicks xs).currPlayer = (if xs.length % 2 = 0 then A else B) := by
    intro xs hl hxs
    have := early_moves A B hne xs (Game.newDefault A B) 0 hd rfl
      (new_occupiedCount A B 7 6) (new_countOf A B 7 6 A) (new_countOf A B 7 6 B) rfl
      (by omega) (by show 0 + xs.length ≤ 6; omega) (by show 0 + xs.length < 6 * 7; omega) hxs
    simpa using this
  have hin6 : ∀ x ∈ [c, b1, c, b2, c, b3], x < 7 := by
    intro x hx
    simp only [List.mem_cons, List.mem_singleton, List.not_mem_nil, or_false] at hx
    rcases hx with rfl | rfl | rfl | rfl | rfl | rfl <;> assumption
  have cur0 : ((Game.newDefault A B).clicks []).currPlayer = A := rfl
  have hin2 : ∀ x ∈ [c, b1], x < 7 := by
    intro x hx
    simp only [List.mem_cons, List.mem_singleton, List.not_mem_nil, or_false] at hx
    rcases hx with rfl | rfl <;> assumption
  have hin4 : ∀ x ∈ [c, b1, c, b2], x < 7 := by
    intro x hx
    simp only [List.mem_cons, List.mem_singleton, List.not_mem_nil, or_false] at hx
    rcases hx with rfl | rfl | rfl | rfl <;> assumption
  have cur2 : ((Game.newDefault A B).clicks [c, b1]).currPlayer = A := by
    simpa using (early [c, b1] (by simp) hin2).2
  have cur4 : ((Game.newDefault A B).clicks [c, b1, c, b2]).currPlayer = A := by
    simpa using (early [c, b1, c, b2] (by simp) hin4).2
  obtain ⟨out6, cur6⟩ := early [c, b1, c, b2, c, b3] (by simp) hin6
  have cur6' : ((Game.newDefault A B).clicks [c, b1, c, b2, c, b3]).currPlayer = A := by
    simpa using cur6
  have hH0 : (Game.newDefault A B).HEIGHT = 6 := rfl
  have k0 : ([] : List Nat).count c = 0 := rfl
  have k2 : [c, b1].count c = 1 := by simp [List.count_cons, n1]
  have k4 : [c, b1, c, b2].count c = 2 := by simp [List.count_cons, n1, n2]
  have k6 : [c, b1, c, b2, c, b3].count c = 3 := by simp [List.count_cons, n1, n2, n3]
  have r5 := (drop_lands _ c hr hempty [] (by rw [k0, hH0]; omega)).2 [b1, c, b2, c, b3]
  have r4 := (drop_lands _ c hr hempty [c, b1] (by rw [k2, hH0]; omega)).2 [b2, c, b3]
  have r3 := (drop_lands _ c hr hempty [c, b1, c, b2] (by rw [k4, hH0]; omega)).2 [b3]
  have s2 := (drop_lands _ c hr hempty [c, b1, c, b2, c, b3] (by rw [k6, hH0]; omega)).1
  rw [k0, cur0] at r5
  rw [k2, cur2] at r4
  rw [k4, cur4] at r3
  rw [k6] at s2
  have r5' : ((Game.newDefault A B).clicks [c, b1, c, b2, c, b3]).board.read 5 c =
      Value.player A := r5
  have r4' : ((Game.newDefault A B).clicks [c, b1, c, b2, c, b3]).board.read 4 c =
      Value.player A := r4
  have r3' : ((Game.newDefault A B).clicks [c, b1, c, b2, c, b3]).board.read 3 c =
      Value.player A := r3
  have s2' : ((Game.newDefault A B).clicks [c, b1, c, b2, c, b3]).findSpotForCol c = some 2 := s2
  generalize hg6 : (Game.newDefault A B).clicks [c, b1, c, b2, c, b3] = g6 at *
  have hW6 : g6.WIDTH = 7 := by rw [← hg6]; exact (clicks_fields _ _).1
  have hH6 : g6.HEIGHT = 6 := by rw [← hg6]; exact (clicks_fields _ _).2.1
  have hr6 : g6.HasRows := by rw [← hg6]; exact clicks_hasRows _ _ hr
  have hcell : ∀ y, 2 ≤ y → y < 6 → (g6.place 2 c).board.read y c = Value.player A := by
    intro y hy2 hy6
    rw [place_read g6 2 c hr6 (by rw [hH6]; decide)]
    by_cases hy : y = 2
    · rw [if_pos ⟨hy, rfl⟩, cur6']
    · have : ¬ (y = 2 ∧ c = c) := fun h => hy h.1
      rw [if_neg this]
      have : y = 3 ∨ y = 4 ∨ y = 5 := by omega
      rcases this with rfl | rfl | rfl
      · exact r3'
      · exact r4'
      · exact r5'
  have hwin : (g6.place 2 c).checkForWin = true := by
    rw [checkForWin_iff_dir]
    refine ⟨2, c, Dir.vertical, by show 2 < g6.HEIGHT; rw [hH6]; decide,
      by show c < g6.WIDTH; rw [hW6]; exact hc, ?_⟩
    rw [win_line_nat]
    refine ⟨by show 2 + 3 < g6.HEIGHT; rw [hH6]; decide, by show c < g6.WIDTH; rw [hW6]; exact hc,
      fun i hi => ?_⟩
    have e : (g6.place 2 c).currPlayer = A := cur6'
    rw [e]
    exact hcell (2 + i) (by omega) (by omega)
  have h7 : g6.handleClick c = (g6.place 2 c, Outcome.won A) := by
    rw [handleClick_of_some g6 c 2 (by rw [hW6]; exact hc) s2', if_pos hwin, cur6']
  constructor
  · have := outcomes_append [c, b1, c, b2, c, b3] [c] (Game.newDefault A B)
    rw [hg6, out6] at this
    show (Game.newDefault A B).outcomes ([c, b1, c, b2, c, b3] ++ [c]) = _
    rw [this]
    show _ ++ [(g6.handleClick c).2] = _
    rw [h7]
    rfl
  · intro y hy2 hy6
    show ((Game.newDefault A B).clicks ([c, b1, c, b2, c, b3] ++ [c])).board.read y c = _
    rw [clicks_append, hg6]
    show (g6.handleClick c).1.board.read y c = _
    rw [h7]
    exact hcell y hy2 hy6

/-- Witness for C14: players 10 and 20, column 2, the other player on columns 0, 0 and 5. -/
theorem vertical_win_scenario_witness :
    (10 : PlayerRef) ≠ 20 ∧
    (Game.newDefault 10 20).outcomes [2, 0, 2, 0, 2, 5, 2] =
      [Outcome.continuing, Outcome.continuing, Outcome.continuing, Outcome.continuing,
        Outcome.continuing, Outcome.continuing, Outcome.won 10] :=
  ⟨by decide,
    (vertical_win_scenario 10 20 (by decide) 2 0 0 5 (by decide) (by decide) (by decide)
      (by decide) (by decide) (by decide) (by decide)).1⟩

end ConnectFour

namespace ConnectFour

/-! ## The colours of the players -/

theorem hexDigitValue_lt (c : Char) (v : Nat) (h : hexDigitValue c = some v) : v < 16 := by
  unfold hexDigitValue at h
  split_ifs at h with h1 h2 h3
  · have := h1.2
    have e : v = c.toNat - '0'.toNat := (Option.some.inj h).symm
    have : c.toNat ≤ '9'.toNat := this
    have k1 : '9'.toNat = 57 := rfl
    have k0 : '0'.toNat = 48 := rfl
    omega
  · have := h2.2
    have e : v = c.toNat - 'a'.toNat + 10 := (Option.some.inj h).symm
    have : c.toNat ≤ 'f'.toNat := this
    have k1 : 'f'.toNat = 102 := rfl
    have k0 : 'a'.toNat = 97 := rfl
    omega
  · have := h3.2
    have e : v = c.toNat - 'A'.toNat + 10 := (Option.some.inj h).symm
    have : c.toNat ≤ 'F'.toNat := this
    have k1 : 'F'.toNat = 70 := rfl
    have k0 : 'A'.toNat = 65 := rfl
    omega

theorem numberOfHex_seven (d5 d4 d3 d2 d1 d0 : Char) (v5 v4 v3 v2 v1 v0 : Nat)
    (h5 : hexDigitValue d5 = some v5) (h4 : hexDigitValue d4 = some v4)
    (h3 : hexDigitValue d3 = some v3) (h2 : hexDigitValue d2 = some v2)
    (h1 : hexDigitValue d1 = some v1) (h0 : hexDigitValue d0 = some v0) :
    numberOfHex ['1', d5, d4, d3, d2, d1, d0] =
      some (16 ^ 6 + (v5 * 16 ^ 5 + v4 * 16 ^ 4 + v3 * 16 ^ 3 + v2 * 16 ^ 2 + v1 * 16 + v0)) := by
  have hone : hexDigitValue '1' = some 1 := by decide
  simp only [numberOfHex, List.foldl, hone, h5, h4, h3, h2, h1, h0, Option.some.injEq]
  ring

theorem xor_high_bit (v : Nat) (hv : v < 2 ^ 24) :
    (2 ^ 24 + v) ^^^ (2 ^ 24 - 1) = 2 ^ 24 + (v ^^^ (2 ^ 24 - 1)) := by
  have hw : v ^^^ (2 ^ 24 - 1) < 2 ^ 24 := Nat.xor_lt_two_pow hv (by norm_num)
  apply Nat.eq_of_testBit_eq
  intro i
  rw [Nat.testBit_xor, Nat.testBit_two_pow_sub_one]
  rcases Nat.lt_trichotomy i 24 with hi | hi | hi
  · rw [Nat.testBit_two_pow_add_gt hi, Nat.testBit_two_pow_add_gt hi, Nat.testBit_xor,
      Nat.testBit_two_pow_sub_one]
  · subst hi
    rw [Nat.testBit_two_pow_add_eq, Nat.testBit_two_pow_add_eq,
      Nat.testBit_lt_two_pow hv, Nat.testBit_lt_two_pow hw]
    rfl
  · have h1 : 2 ^ 24 + v < 2 ^ i := by
      have : (2 : Nat) ^ 25 ≤ 2 ^ i := Nat.pow_le_pow_right (by norm_num) hi
      omega
    have h2 : 2 ^ 24 + (v ^^^ (2 ^ 24 - 1)) < 2 ^ i := by
      have : (2 : Nat) ^ 25 ≤ 2 ^ i := Nat.pow_le_pow_right (by norm_num) hi
      omega
    rw [Nat.testBit_lt_two_pow h1, Nat.testBit_lt_two_pow h2]
    have : ¬ i < 24 := by omega
    simp [this]

theorem xorFFFFFF_seven (v : Nat) (hv : v < 16 ^ 6) :
    xorFFFFFF (some (16 ^ 6 + v)) = ((16 ^ 6 + (v ^^^ 0xffffff) : Nat) : Int) := by
  have hv' : v < 2 ^ 24 := by norm_num at hv ⊢; exact hv
  have h := xor_high_bit v hv'
  have hw : v ^^^ (2 ^ 24 - 1) < 2 ^ 24 := Nat.xor_lt_two_pow hv' (by norm_num)
  norm_num at h hw
  have hmod : (16 ^ 6 + v) % 2 ^ 32 = 16777216 + v := by
    norm_num
    omega
  have hlt : (16777216 + v) ^^^ 16777215 < 2 ^ 31 := by
    rw [h]; norm_num; omega
  simp only [xorFFFFFF, Option.getD_some, hmod]
  norm_num at hlt ⊢
  rw [if_pos hlt, h]
  norm_num

theorem toDigitsCore_step (fuel n : Nat) (ds : List Char) (h : n < fuel) :
    Nat.toDigitsCore 16 fuel n ds =
      if n / 16 = 0 then Nat.digitChar (n % 16) :: ds
      else Nat.toDigitsCore 16 (fuel - 1) (n / 16) (Nat.digitChar (n % 16) :: ds) := by
  cases fuel with
  | zero => omega
  | succ f => simp [Nat.toDigitsCore]

theorem toDigits_seven (w : Nat) (hw : w < 16 ^ 6) :
    Nat.toDigits 16 (16 ^ 6 + w) =
      ['1', Nat.digitChar (w / 16 ^ 5 % 16), Nat.digitChar (w / 16 ^ 4 % 16),
        Nat.digitChar (w / 16 ^ 3 % 16), Nat.digitChar (w / 16 ^ 2 % 16),
        Nat.digitChar (w / 16 % 16), Nat.digitChar (w % 16)] := by
  norm_num at hw
  unfold Nat.toDigits
  norm_num
  rw [toDigitsCore_step _ _ _ (by omega), if_neg (by omega),
    toDigitsCore_step _ _ _ (by omega), if_neg (by omega),
    toDigitsCore_step _ _ _ (by omega), if_neg (by omega),
    toDigitsCore_step _ _ _ (by omega), if_neg (by omega),
    toDigitsCore_step _ _ _ (by omega), if_neg (by omega),
    toDigitsCore_step _ _ _ (by omega), if_neg (by omega),
    toDigitsCore_step _ _ _ (by omega), if_pos (by omega)]
  have e0 : (16777216 + w) % 16 = w % 16 := by omega
  have e1 : (16777216 + w) / 16 % 16 = w / 16 % 16 := by omega
  have e2 : (16777216 + w) / 16 / 16 % 16 = w / 256 % 16 := by omega
  have e3 : (16777216 + w) / 16 / 16 / 16 % 16 = w / 4096 % 16 := by omega
  have e4 : (16777216 + w) / 16 / 16 / 16 / 16 % 16 = w / 65536 % 16 := by omega
  have e5 : (16777216 + w) / 16 / 16 / 16 / 16 / 16 % 16 = w / 1048576 % 16 := by omega
  have e6 : (16777216 + w) / 16 / 16 / 16 / 16 / 16 / 16 % 16 = 1 := by omega
  rw [e0, e1, e2, e3, e4, e5, e6]
  rfl

theorem toUpper_digitChar (d : Nat) (hd : d < 16) :
    (Nat.digitChar d).toUpper = upperHexDigit d := by
  interval_cases d <;> rfl

/-- The colour computed from `#` and six hexadecimal digits of value `v`. -/
theorem oppositeColor_hex (s : JSString) (v : Nat) (hs : IsHexColor s v) :
    oppositeColor s = '#' :: hex6Upper (v ^^^ 0xFFFFFF) := by
  obtain ⟨d5, d4, d3, d2, d1, d0, v5, v4, v3, v2, v1, v0, rfl, h5, h4, h3, h2, h1, h0, rfl⟩ := hs
  have b5 := hexDigitValue_lt _ _ h5
  have b4 := hexDigitValue_lt _ _ h4
  have b3 := hexDigitValue_lt _ _ h3
  have b2 := hexDigitValue_lt _ _ h2
  have b1 := hexDigitValue_lt _ _ h1
  have b0 := hexDigitValue_lt _ _ h0
  have hv : v5 * 16 ^ 5 + v4 * 16 ^ 4 + v3 * 16 ^ 3 + v2 * 16 ^ 2 + v1 * 16 + v0 < 16 ^ 6 := by
    norm_num
    omega
  have hw : (v5 * 16 ^ 5 + v4 * 16 ^ 4 + v3 * 16 ^ 3 + v2 * 16 ^ 2 + v1 * 16 + v0) ^^^ 0xFFFFFF
      < 16 ^ 6 := by
    have : (16 : Nat) ^ 6 = 2 ^ 24 := by norm_num
    rw [this] at hv ⊢
    exact Nat.xor_lt_two_pow hv (by norm_num)
  unfold oppositeColor
  rw [show (['#', d5, d4, d3, d2, d1, d0] : JSString).drop 1 = [d5, d4, d3, d2, d1, d0] from rfl,
    numberOfHex_seven d5 d4 d3 d2 d1 d0 v5 v4 v3 v2 v1 v0 h5 h4 h3 h2 h1 h0,
    xorFFFFFF_seven _ hv]
  have hts : ∀ n : Nat, toString16 (n : Int) = Nat.toDigits 16 n := by
    intro n
    have : ¬ ((n : Int) < 0) := by omega
    simp [toString16, this]
  rw [hts, toDigits_seven _ hw]
  simp only [List.drop_succ_cons, List.drop_zero, List.map_cons, List.map_nil, hex6Upper]
  rw [toUpper_digitChar _ (Nat.mod_lt _ (by norm_num)),
    toUpper_digitChar _ (Nat.mod_lt _ (by norm_num)),
    toUpper_digitChar _ (Nat.mod_lt _ (by norm_num)),
    toUpper_digitChar _ (Nat.mod_lt _ (by norm_num)),
    toUpper_digitChar _ (Nat.mod_lt _ (by norm_num)),
    toUpper_digitChar _ (Nat.mod_lt _ (by norm_num))]

theorem hexDigitValue_upper (d : Nat) (hd : d < 16) :
    hexDigitValue (upperHexDigit d) = some d := by
  interval_cases d <;> decide

theorem hex6Upper_isHex (w : Nat) (hw : w < 16 ^ 6) : IsHexColor ('#' :: hex6Upper w) w := by
  refine ⟨_, _, _, _, _, _, _, _, _, _, _, _, rfl,
    hexDigitValue_upper _ (Nat.mod_lt _ (by norm_num)),
    hexDigitValue_upper _ (Nat.mod_lt _ (by norm_num)),
    hexDigitValue_upper _ (Nat.mod_lt _ (by norm_num)),
    hexDigitValue_upper _ (Nat.mod_lt _ (by norm_num)),
    hexDigitValue_upper _ (Nat.mod_lt _ (by norm_num)),
    hexDigitValue_upper _ (Nat.mod_lt _ (by norm_num)), ?_⟩
  norm_num at hw ⊢
  omega

theorem isHexColor_value (s : JSString) (v v' : Nat) (h : IsHexColor s v) (h' : IsHexColor s v') :
    v = v' := by
  obtain ⟨d5, d4, d3, d2, d1, d0, v5, v4, v3, v2, v1, v0, rfl, h5, h4, h3, h2, h1, h0, rfl⟩ := h
  obtain ⟨e5, e4, e3, e2, e1, e0, w5, w4, w3, w2, w1, w0, hs, k5, k4, k3, k2, k1, k0, rfl⟩ := h'
  simp only [List.cons.injEq, and_true, true_and] at hs
  obtain ⟨rfl, rfl, rfl, rfl, rfl, rfl⟩ := hs
  rw [h5] at k5; rw [h4] at k4; rw [h3] at k3; rw [h2] at k2; rw [h1] at k1; rw [h0] at k0
  rw [Option.some.inj k5, Option.some.inj k4, Option.some.inj k3, Option.some.inj k2,
    Option.some.inj k1, Option.some.inj k0]

theorem isHexColor_lt (s : JSString) (v : Nat) (h : IsHexColor s v) : v < 16 ^ 6 := by
  obtain ⟨d5, d4, d3, d2, d1, d0, v5, v4, v3, v2, v1, v0, rfl, h5, h4, h3, h2, h1, h0, rfl⟩ := h
  have b5 := hexDigitValue_lt _ _ h5
  have b4 := hexDigitValue_lt _ _ h4
  have b3 := hexDigitValue_lt _ _ h3
  have b2 := hexDigitValue_lt _ _ h2
  have b1 := hexDigitValue_lt _ _ h1
  have b0 := hexDigitValue_lt _ _ h0
  norm_num
  omega

theorem oppositeColor_ne (s : JSString) (v : Nat) (hs : IsHexColor s v) :
    oppositeColor s ≠ s := by
  intro he
  rw [oppositeColor_hex s v hs] at he
  have hv := isHexColor_lt s v hs
  have hw : v ^^^ 0xFFFFFF < 16 ^ 6 := by
    have : (16 : Nat) ^ 6 = 2 ^ 24 := by norm_num
    rw [this] at hv ⊢
    exact Nat.xor_lt_two_pow hv (by norm_num)
  have h2 := hex6Upper_isHex _ hw
  rw [he] at h2
  have e := isHexColor_value s _ _ hs h2
  have e' : v ^^^ 0 = v ^^^ 0xFFFFFF := by rw [Nat.xor_zero]; exact e
  have := Nat.xor_right_inj.mp e'
  exact absurd this (by decide)

/-- C16: `colorUnique` on two distinct player objects whose colours are `#`
followed by six hexadecimal digits.  If the two colours are equal, the colour
of player 2 becomes `#` followed by the six-digit upper-case hexadecimal form
(leading zeros kept) of the value of player 1's colour XOR `0xFFFFFF`, and it
differs from player 1's colour; if they differ, nothing changes; player 1's
object, and the name of player 2, are never changed. -/
theorem colorUnique_spec (h : Heap) (p1 p2 : PlayerRef) (v1 v2 : Nat) (hne : p1 ≠ p2)
    (h1 : IsHexColor (h p1).color v1) (_h2 : IsHexColor (h p2).color v2) :
    ((h p1).color = (h p2).color →
      (colorUnique h p1 p2 p2).color = '#' :: hex6Upper (v1 ^^^ 0xFFFFFF) ∧
      (colorUnique h p1 p2 p2).color ≠ (colorUnique h p1 p2 p1).color) ∧
    ((h p1).color ≠ (h p2).color → colorUnique h p1 p2 = h) ∧
    colorUnique h p1 p2 p1 = h p1 ∧
    (colorUnique h p1 p2 p2).name = (h p2).name ∧
    (∀ q, q ≠ p2 → colorUnique h p1 p2 q = h q) := by
  have hother : ∀ q, q ≠ p2 → colorUnique h p1 p2 q = h q := by
    intro q hq
    unfold colorUnique
    split_ifs
    · exact Function.update_noteq hq _ _
    · rfl
  refine ⟨?_, ?_, hother p1 hne, ?_, hother⟩
  · intro he
    have hp2 : (colorUnique h p1 p2 p2).color = oppositeColor (h p1).color := by
      unfold colorUnique
      rw [if_pos he, Function.update_same]
    rw [hp2, hother p1 hne]
    exact ⟨oppositeColor_hex _ v1 h1, oppositeColor_ne _ v1 h1⟩
  · intro hd
    unfold colorUnique
    rw [if_neg hd]
  · unfold colorUnique
    split_ifs
    · rw [Function.update_same]
    · rfl

/-- Witness for C16: two players that were both given `#ff0000`; player 2 gets `#00FFFF`. -/
theorem colorUnique_spec_witness :
    (1 : PlayerRef) ≠ 2 ∧ (bothRedHeap 1).color = (bothRedHeap 2).color ∧
    (colorUnique bothRedHeap 1 2 2).color = '#' :: hex6Upper (0xFF0000 ^^^ 0xFFFFFF) ∧
    (colorUnique bothRedHeap 1 2 2).color = ['#', '0', '0', 'F', 'F', 'F', 'F'] :=
  ⟨by decide, by decide,
    ((colorUnique_spec bothRedHeap 1 2 0xFF0000 0xFF0000 (by decide)
      ⟨'f', 'f', '0', '0', '0', '0', 15, 15, 0, 0, 0, 0, rfl, by decide, by decide, by decide,
        by decide, by decide, by decide, by decide⟩
      ⟨'f', 'f', '0', '0', '0', '0', 15, 15, 0, 0, 0, 0, rfl, by decide, by decide, by decide,
        by decide, by decide, by decide, by decide⟩).1 (by decide)).1,
    by decide⟩

end ConnectFour
